import Mathlib

/-!
# The ALSA mixer registry (`src/mixer/mixer.c`)

A shallow embedding of the mixer registry: the sorted element collection
(pointer array `pelems` plus the traversal list `elems`), the binary search,
insertion and removal, re-sorting, class registration and teardown, slave
attachment and detachment, the two Source-event dispatchers and the multi-slave
loops.

Conventions of the embedding.

* Pointers are natural numbers (addresses); `0` is `NULL`.  Element, class and
  Source records live in a `World`, a map from addresses to records; an address
  that is not mapped is not a live object and dereferencing it is a fault.
* `unsigned int` values are naturals reduced modulo `2^32`; `int` values are
  integers, converted with `to_int` / `to_unsigned`.
* The pointer array is kept as raw bytes, because the source moves it with
  `memmove` and a byte count.  A byte is `none` while it is indeterminate
  (fresh from `realloc`).  Pointers take eight bytes, least significant first.
* Callbacks and class handlers are foreign code.  They are pure oracles stored
  in the records; every invocation is appended to `World.log`.
* A run ends in `Outcome.ret` (normal return) or `Outcome.fault` (undefined
  behaviour, a failed `assert`, or an exhausted iteration budget), each with the
  world reached so far.
-/

namespace AlsaMixer

/-! ## Machine integers and error codes -/

/-- Value of an expression of type `unsigned int`: reduction modulo `2^32`. -/
def to_unsigned (i : Int) : Nat := (i % 4294967296).toNat

/-- Conversion of an `unsigned int` value to `int` (two's complement). -/
def to_int (n : Nat) : Int :=
  if n % 4294967296 < 2147483648 then ((n % 4294967296 : Nat) : Int)
  else ((n % 4294967296 : Nat) : Int) - 4294967296

/-- Result of an `int` operation whose mathematical value is `i`. -/
def wrap_int (i : Int) : Int := to_int (to_unsigned i)

def EINVAL : Int := 22

def ENOMEM : Int := 12

def ENOENT : Int := 2

/-! ## Data model -/

/-- Event kinds delivered by a Source. -/
inductive snd_ctl_event_type_t where
  | SND_CTL_EVENT_ADD
  | SND_CTL_EVENT_VALUE
  | SND_CTL_EVENT_INFO
  | SND_CTL_EVENT_REMOVE
  deriving DecidableEq, Repr

open snd_ctl_event_type_t

/-- The fields of `snd_mixer_elem_t` used by `mixer.c`.  `callback` is the
element callback `(elem, event) ↦ result`; `private_free` tells whether the
destructor hook is set. -/
structure snd_mixer_elem_t where
  class_ : Nat
  compare_weight : Int
  callback : Option (Nat → snd_ctl_event_type_t → Int)
  private_free : Bool

/-- The fields of `snd_mixer_class_t` used by `mixer.c`.  The event handler
receives `(event, helem, melem)` and the current bag of `helem`; it returns its
result and the bag as it leaves it (attach and detach are its only effects on
the registry side that the dispatchers observe). -/
structure snd_mixer_class_t where
  event : Option (snd_ctl_event_type_t → Nat → Option Nat → List Nat → Int × List Nat)
  compare : Option (Nat → Nat → Int)
  private_free : Bool

/-- The value of the `compare` field of the registry: the static function
`snd_mixer_compare_default` or a comparator supplied by the caller. -/
inductive snd_mixer_compare_t where
  | snd_mixer_compare_default
  | custom (f : Nat → Nat → Int)

structure snd_mixer_slave_t where
  hctl : Nat
  deriving DecidableEq, Repr

/-- A call of `snd_mixer_throw_event(mixer, event, elem)` or of
`snd_mixer_elem_throw_event(elem, event)` made while a Source pumps events. -/
inductive Throw where
  | mixer (event : snd_ctl_event_type_t) (elem : Nat)
  | elem (elem : Nat) (event : snd_ctl_event_type_t)
  deriving DecidableEq, Repr

/-- Modelled from the spec: the Source (`snd_hctl_t`, not part of `mixer.c`).
Of its contract the registry uses the event pump, which re-enters the registry
and ends with a result, and `load`.  A Source is described by the throw calls
its pump causes, the pump's result and the result of `load`, besides its name. -/
structure snd_hctl_t where
  name : String
  handle_events_throws : List Throw
  handle_events_result : Int
  load_result : Int

/-- The registry object.  `slaves` and `classes` are in list order, head first;
`pelems` is the memory block of the pointer array, byte by byte; `count`,
`alloc` and `events` are `unsigned int`. -/
structure snd_mixer_t where
  slaves : List snd_mixer_slave_t
  classes : List Nat
  elems : List Nat
  pelems : List (Option Nat)
  count : Nat
  alloc : Nat
  events : Nat
  callback : Option (snd_ctl_event_type_t → Nat → Int)
  compare : snd_mixer_compare_t

/-- One invocation of foreign code.  Consumer callbacks are recorded with the
traversal list as it is at the time of the call. -/
inductive Call where
  | mixer_callback (event : snd_ctl_event_type_t) (elem : Nat) (linked : List Nat)
  | elem_callback (elem : Nat) (event : snd_ctl_event_type_t) (linked : List Nat)
  | class_event (cls : Nat) (event : snd_ctl_event_type_t) (helem : Nat)
      (melem : Option Nat) (result : Int)
  | elem_private_free (elem : Nat)
  | class_private_free (cls : Nat)
  | hctl_handle_events (hctl : Nat)
  | hctl_load (hctl : Nat)
  | hctl_close (hctl : Nat)
  deriving DecidableEq, Repr

/-- Everything the functions of `mixer.c` read or write: the registry, the
records reachable through pointers, the bag stored in the private slot of each
low-level handle, and the log of foreign calls.  The world holds one registry;
`class->mixer` denotes it exactly for the classes in its class list. -/
structure World where
  mixer : snd_mixer_t
  elem_mem : Nat → Option snd_mixer_elem_t
  class_mem : Nat → Option snd_mixer_class_t
  hctl_mem : Nat → Option snd_hctl_t
  bags : Nat → Option (List Nat)
  log : List Call

inductive Fault where
  | undefined_behaviour
  | assertion
  | out_of_fuel
  deriving DecidableEq, Repr

/-- How a call ends: with a return value, or in a fault. -/
inductive Outcome where
  | ret (value : Int) (w : World)
  | fault (f : Fault) (w : World)

/-- Write to one address of a record map. -/
def poke {α : Type} (mem : Nat → Option α) (p : Nat) (v : Option α) : Nat → Option α :=
  fun q => if q = p then v else mem q

/-! ## Memory of the pointer array -/

/-- The object representation of a pointer: eight bytes, least significant first. -/
def ptr_bytes (p : Nat) : List (Option Nat) :=
  (List.range 8).map fun i => some (p / 256 ^ i % 256)

/-- The pointer value of a run of bytes; `none` if a byte is indeterminate. -/
def bytes_ptr : List (Option Nat) → Option Nat
  | [] => some 0
  | none :: _ => none
  | some b :: rest => (bytes_ptr rest).map fun v => b + 256 * v

/-- The value of `pelems[idx]`: `none` outside the block or on indeterminate bytes. -/
def read_ptr (mem : List (Option Nat)) (idx : Int) : Option Nat :=
  if 0 ≤ idx ∧ (idx.toNat + 1) * 8 ≤ mem.length then
    bytes_ptr ((mem.drop (idx.toNat * 8)).take 8)
  else none

/-- The assignment `pelems[idx] = p`. -/
def write_ptr (mem : List (Option Nat)) (idx : Nat) (p : Nat) : Option (List (Option Nat)) :=
  if (idx + 1) * 8 ≤ mem.length then
    some (mem.take (idx * 8) ++ ptr_bytes p ++ mem.drop ((idx + 1) * 8))
  else none

/-- The block after `realloc(pelems, size)`: old contents kept, new bytes indeterminate. -/
def realloc (mem : List (Option Nat)) (size : Nat) : List (Option Nat) :=
  mem.take size ++ List.replicate (size - mem.length) none

/-- The block after `memmove(block + dst, block + src, n)`, offsets and `n` in bytes. -/
def memmove (mem : List (Option Nat)) (dst src n : Nat) : Option (List (Option Nat)) :=
  if src + n ≤ mem.length ∧ dst + n ≤ mem.length then
    some (mem.take dst ++ (mem.drop src).take n ++ mem.drop (dst + n))
  else none

/-- The pointers held by the first `count` cells of the array. -/
def array_cells (mem : List (Option Nat)) (count : Nat) : List (Option Nat) :=
  (List.range count).map fun i => read_ptr mem (i : Int)

/-! ## Linked lists

Modelled from the spec: the list primitives of `list.h` (not under `src/`).  A
list is the sequence of the nodes linked into it, head excluded. -/

/-- Modelled from the spec: `list_add(new, anchor)` links `new` right after the
node `anchor`; `none` if `anchor` is not a node of the list. -/
def list_add (new anchor : Nat) : List Nat → Option (List Nat)
  | [] => none
  | x :: xs =>
    if x = anchor then some (x :: new :: xs)
    else (list_add new anchor xs).map fun r => x :: r

/-- Modelled from the spec: `list_add_tail(new, anchor)` links `new` right before
the node `anchor`; `none` if `anchor` is not a node of the list. -/
def list_add_tail (new anchor : Nat) : List Nat → Option (List Nat)
  | [] => none
  | x :: xs =>
    if x = anchor then some (new :: x :: xs)
    else (list_add_tail new anchor xs).map fun r => x :: r

/-- Modelled from the spec: `list_add_tail(new, head)` appends at the end of the list. -/
def list_add_tail_head (new : Nat) (l : List Nat) : List Nat := l ++ [new]

/-- Modelled from the spec: `list_del(node)` unlinks the node; `none` if the node
is not linked into the list (its link fields are then not valid pointers). -/
def list_del (node : Nat) : List Nat → Option (List Nat)
  | [] => none
  | x :: xs =>
    if x = node then some xs
    else (list_del node xs).map fun r => x :: r

/-! ## Registry creation and the comparators -/

/-- The registry built by a successful `snd_mixer_open`: `calloc` zeroes the
object, the three lists are empty and the comparator is the default one. -/
def snd_mixer_open_mixer : snd_mixer_t :=
  { slaves := [], classes := [], elems := [], pelems := [], count := 0, alloc := 0,
    events := 0, callback := none, compare := snd_mixer_compare_t.snd_mixer_compare_default }

/-- The function `snd_mixer_open`: `-ENOMEM` if `calloc` fails, else `0` and the registry. -/
def snd_mixer_open (calloc_ok : Bool) : Int × Option snd_mixer_t :=
  if calloc_ok then (0, some snd_mixer_open_mixer) else (-ENOMEM, none)

/-- The function `snd_mixer_compare_default(c1, c2)`. -/
def snd_mixer_compare_default (w : World) (c1 c2 : Nat) : Except Fault Int :=
  match w.elem_mem c1, w.elem_mem c2 with
  | some e1, some e2 =>
    let d := wrap_int (e1.compare_weight - e2.compare_weight)
    if d ≠ 0 then .ok d
    else if e1.class_ = 0 then .error Fault.assertion
    else
      match w.class_mem e1.class_ with
      | none => .error Fault.undefined_behaviour
      | some k1 =>
        match k1.compare with
        | none => .error Fault.assertion
        | some f =>
          if e2.class_ = 0 then .error Fault.assertion
          else
            match w.class_mem e2.class_ with
            | none => .error Fault.undefined_behaviour
            | some k2 =>
              match k2.compare with
              | none => .error Fault.assertion
              | some _ =>
                if e1.class_ = e2.class_ then .ok (f c1 c2) else .error Fault.assertion
  | _, _ => .error Fault.undefined_behaviour

/-- The call `mixer->compare(c1, c2)`. -/
def call_compare (w : World) (c1 c2 : Nat) : Except Fault Int :=
  match w.mixer.compare with
  | snd_mixer_compare_t.snd_mixer_compare_default => snd_mixer_compare_default w c1 c2
  | snd_mixer_compare_t.custom f => .ok (f c1 c2)

/-! ## Consumer notification -/

/-- The function `snd_mixer_throw_event(mixer, event, elem)`. -/
def snd_mixer_throw_event (w : World) (event : snd_ctl_event_type_t) (elem : Nat) : Outcome :=
  let w1 : World := { w with mixer := { w.mixer with events := (w.mixer.events + 1) % 4294967296 } }
  match w1.mixer.callback with
  | some cb =>
    .ret (cb event elem)
      { w1 with log := w1.log ++ [Call.mixer_callback event elem w1.mixer.elems] }
  | none => .ret 0 w1

/-- The function `snd_mixer_elem_throw_event(elem, event)`.  Reaching the counter
through `elem->class->mixer` needs a live element whose class is registered. -/
def snd_mixer_elem_throw_event (w : World) (elem : Nat) (event : snd_ctl_event_type_t) :
    Outcome :=
  match w.elem_mem elem with
  | none => .fault Fault.undefined_behaviour w
  | some e =>
    if e.class_ ∈ w.mixer.classes then
      let w1 : World :=
        { w with mixer := { w.mixer with events := (w.mixer.events + 1) % 4294967296 } }
      match e.callback with
      | some cb =>
        .ret (cb elem event)
          { w1 with log := w1.log ++ [Call.elem_callback elem event w1.mixer.elems] }
      | none => .ret 0 w1
    else .fault Fault.undefined_behaviour w

/-! ## Search, insertion, removal -/

/-- The loop of `_snd_mixer_find_elem`, one iteration per unit of fuel; the
state is `(l, u, c, idx)` and the result is `(idx, dir)`. -/
def find_loop (w : World) (elem : Nat) : Nat → Nat → Nat → Int → Int → Except Fault (Int × Int)
  | 0, _, _, _, _ => .error Fault.out_of_fuel
  | fuel + 1, l, u, c, idx =>
    if l < u then
      let idx1 := to_int ((l + u) % 4294967296 / 2)
      match read_ptr w.mixer.pelems idx1 with
      | none => .error Fault.undefined_behaviour
      | some p =>
        match call_compare w elem p with
        | .error f => .error f
        | .ok c1 =>
          if c1 < 0 then find_loop w elem fuel l (to_unsigned idx1) c1 idx1
          else if c1 > 0 then find_loop w elem fuel (to_unsigned (wrap_int (idx1 + 1))) u c1 idx1
          else .ok (idx1, c1)
    else .ok (idx, c)

/-- The function `_snd_mixer_find_elem(mixer, elem, &dir)`; the result is `(idx, dir)`.
Of `assert(mixer && elem)` the test of `elem` is modelled: the registry is the
one of the world.  `assert(mixer->compare)` cannot fail, the field `compare`
always holding a function. -/
def _snd_mixer_find_elem (w : World) (elem : Nat) : Except Fault (Int × Int) :=
  if elem = 0 then .error Fault.assertion
  else find_loop w elem (w.mixer.count + 1) 0 w.mixer.count 0 (-1)

/-- The tail of `snd_mixer_elem_add`: `mixer->count++` and the `ADD` notification. -/
def elem_add_finish (w : World) (elem : Nat) : Outcome :=
  snd_mixer_throw_event
    { w with mixer := { w.mixer with count := (w.mixer.count + 1) % 4294967296 } }
    SND_CTL_EVENT_ADD elem

/-- The part of `snd_mixer_elem_add` after the capacity check. -/
def elem_add_place (w : World) (elem : Nat) : Outcome :=
  if w.mixer.count = 0 then
    match write_ptr w.mixer.pelems 0 elem with
    | none => .fault Fault.undefined_behaviour w
    | some mem =>
      elem_add_finish
        { w with mixer := { w.mixer with elems := list_add_tail_head elem w.mixer.elems,
                                          pelems := mem } } elem
  else
    match _snd_mixer_find_elem w elem with
    | .error f => .fault f w
    | .ok (idx, dir) =>
      if dir = 0 then .fault Fault.assertion w
      else
        match read_ptr w.mixer.pelems idx with
        | none => .fault Fault.undefined_behaviour w
        | some anchor =>
          let linked := if dir > 0 then list_add elem anchor w.mixer.elems
                        else list_add_tail elem anchor w.mixer.elems
          let idx1 : Int := if dir > 0 then idx else wrap_int (idx + 1)
          match linked with
          | none => .fault Fault.undefined_behaviour w
          | some l =>
            if idx1 < 0 then .fault Fault.undefined_behaviour w
            else
              match memmove w.mixer.pelems ((idx1.toNat + 1) * 8) (idx1.toNat * 8)
                      (to_unsigned ((w.mixer.count : Int) - idx1)) with
              | none => .fault Fault.undefined_behaviour w
              | some mem =>
                elem_add_finish
                  { w with mixer := { w.mixer with elems := l, pelems := mem } } elem

/-- The function `snd_mixer_elem_add(elem, class)`; `realloc_ok` tells whether a
growth of the array, if one is needed, succeeds. -/
def snd_mixer_elem_add (w : World) (elem class_ : Nat) (realloc_ok : Bool) : Outcome :=
  if class_ ∈ w.mixer.classes then
    match w.elem_mem elem with
    | none => .fault Fault.undefined_behaviour w
    | some e =>
      let w1 : World := { w with elem_mem := poke w.elem_mem elem (some { e with class_ := class_ }) }
      if w1.mixer.count = w1.mixer.alloc then
        if realloc_ok then
          let alloc1 := (w1.mixer.alloc + 32) % 4294967296
          elem_add_place
            { w1 with mixer := { w1.mixer with alloc := alloc1,
                                                pelems := realloc w1.mixer.pelems (8 * alloc1) } }
            elem
        else .ret (-ENOMEM) w1
      else elem_add_place w1 elem
  else .fault Fault.undefined_behaviour w

/-- The part of `snd_mixer_elem_remove` after the notification: unlink, free,
decrement, compact. -/
def elem_remove_unlink (w : World) (elem : Nat) (idx err : Int) : Outcome :=
  match list_del elem w.mixer.elems with
  | none => .fault Fault.undefined_behaviour w
  | some l =>
    let count1 := to_unsigned ((w.mixer.count : Int) - 1)
    let w1 : World :=
      { w with mixer := { w.mixer with elems := l, count := count1 },
               elem_mem := poke w.elem_mem elem none }
    let m := to_unsigned ((count1 : Int) - idx)
    if m > 0 then
      if idx < 0 then .fault Fault.undefined_behaviour w1
      else
        match memmove w1.mixer.pelems (idx.toNat * 8) ((idx.toNat + 1) * 8) m with
        | none => .fault Fault.undefined_behaviour w1
        | some mem => .ret err { w1 with mixer := { w1.mixer with pelems := mem } }
    else .ret err w1

/-- The function `snd_mixer_elem_remove(elem)`. -/
def snd_mixer_elem_remove (w : World) (elem : Nat) : Outcome :=
  match w.elem_mem elem with
  | none => .fault Fault.undefined_behaviour w
  | some e =>
    if e.class_ ∈ w.mixer.classes then
      match _snd_mixer_find_elem w elem with
      | .error f => .fault f w
      | .ok (idx, dir) =>
        if dir ≠ 0 then .ret (-EINVAL) w
        else
          match snd_mixer_elem_throw_event w elem SND_CTL_EVENT_REMOVE with
          | .fault f w1 => .fault f w1
          | .ret err w1 => elem_remove_unlink w1 elem idx err
    else .fault Fault.undefined_behaviour w

/-- The function `snd_mixer_elem_change(elem)`. -/
def snd_mixer_elem_change (w : World) (elem : Nat) : Outcome :=
  snd_mixer_elem_throw_event w elem SND_CTL_EVENT_INFO

/-! ## Class teardown -/

/-- The loop of `snd_mixer_class_unregister` over the element list.  The
`(pos, next)` iteration fetches `next` before the body runs and the body
unlinks at most the current node, so the nodes visited are those of the list
as it is on entry. -/
def class_unregister_loop (class_ : Nat) : List Nat → World → Outcome
  | [], w => .ret 0 w
  | e :: rest, w =>
    match w.elem_mem e with
    | none => .fault Fault.undefined_behaviour w
    | some er =>
      let w1 : World :=
        if er.class_ = class_ ∧ er.private_free = true then
          { w with log := w.log ++ [Call.elem_private_free e] }
        else w
      match snd_mixer_elem_remove w1 e with
      | .fault f w2 => .fault f w2
      | .ret _ w2 => class_unregister_loop class_ rest w2

/-- The function `snd_mixer_class_unregister(class)`. -/
def snd_mixer_class_unregister (w : World) (class_ : Nat) : Outcome :=
  if class_ ∈ w.mixer.classes then
    match w.class_mem class_ with
    | none => .fault Fault.undefined_behaviour w
    | some k =>
      match class_unregister_loop class_ w.mixer.elems w with
      | .fault f w1 => .fault f w1
      | .ret _ w1 =>
        let w2 : World :=
          if k.private_free = true then
            { w1 with log := w1.log ++ [Call.class_private_free class_] }
          else w1
        match list_del class_ w2.mixer.classes with
        | none => .fault Fault.undefined_behaviour w2
        | some l =>
          .ret 0 { w2 with mixer := { w2.mixer with classes := l },
                           class_mem := poke w2.class_mem class_ none }
  else .fault Fault.undefined_behaviour w

/-! ## Source-event dispatch -/

/-- The call `class->event(class, event, helem, melem)` for the class at address
`cls`.  The handler sees the bag bound to `helem` and leaves it as it returns it. -/
def call_class_event (w : World) (cls : Nat) (event : snd_ctl_event_type_t) (helem : Nat)
    (melem : Option Nat) : Outcome :=
  match w.class_mem cls with
  | none => .fault Fault.undefined_behaviour w
  | some k =>
    match k.event with
    | none => .fault Fault.undefined_behaviour w
    | some h =>
      let r := h event helem melem ((w.bags helem).getD [])
      .ret r.1
        { w with bags := poke w.bags helem ((w.bags helem).map fun _ => r.2),
                 log := w.log ++ [Call.class_event cls event helem melem r.1] }

/-- The body of both bag loops: `class = melem->class; err = class->event(...)`. -/
def call_elem_class_event (w : World) (event : snd_ctl_event_type_t) (helem melem : Nat) :
    Outcome :=
  match w.elem_mem melem with
  | none => .fault Fault.undefined_behaviour w
  | some e => call_class_event w e.class_ event helem (some melem)

/-- Modelled from the spec: the iterator step of `bag_for_each(i, n, bag)` (the
bag code is not under `src/`): the member after `i`, fetched before the body
runs; `some none` at the end of the bag, `none` if `i` is not a member. -/
def bag_next (i : Nat) : List Nat → Option (Option Nat)
  | [] => none
  | x :: xs => if x = i then some xs.head? else bag_next i xs

/-- The `VALUE` / `INFO` loop of `hctl_elem_event_handler`; the value returned is
the local `err` with which the loop is left. -/
def value_info_loop (event : snd_ctl_event_type_t) (helem : Nat) :
    Nat → Option Nat → Int → World → Outcome
  | 0, _, _, w => .fault Fault.out_of_fuel w
  | _ + 1, none, err, w => .ret err w
  | fuel + 1, some i, _, w =>
    match w.bags helem with
    | none => .fault Fault.undefined_behaviour w
    | some bag =>
      match bag_next i bag with
      | none => .fault Fault.undefined_behaviour w
      | some n =>
        match call_elem_class_event w event helem i with
        | .fault f w1 => .fault f w1
        | .ret err1 w1 =>
          if err1 < 0 then .ret err1 w1
          else value_info_loop event helem fuel n err1 w1

/-- The `REMOVE` loop of `hctl_elem_event_handler`; the value returned is `res`. -/
def remove_loop (helem : Nat) : Nat → Option Nat → Int → World → Outcome
  | 0, _, _, w => .fault Fault.out_of_fuel w
  | _ + 1, none, res, w => .ret res w
  | fuel + 1, some i, res, w =>
    match w.bags helem with
    | none => .fault Fault.undefined_behaviour w
    | some bag =>
      match bag_next i bag with
      | none => .fault Fault.undefined_behaviour w
      | some n =>
        match call_elem_class_event w SND_CTL_EVENT_REMOVE helem i with
        | .fault f w1 => .fault f w1
        | .ret err w1 => remove_loop helem fuel n (if err < 0 then err else res) w1

/-- The function `hctl_elem_event_handler(helem, event)`; `fuel` bounds the
number of loop iterations. -/
def hctl_elem_event_handler (w : World) (fuel : Nat) (helem : Nat)
    (event : snd_ctl_event_type_t) : Outcome :=
  match w.bags helem with
  | none => .fault Fault.undefined_behaviour w
  | some bag =>
    match event with
    | SND_CTL_EVENT_VALUE | SND_CTL_EVENT_INFO =>
      match value_info_loop event helem fuel bag.head? 0 w with
      | .fault f w1 => .fault f w1
      | .ret _ w1 => .ret 0 w1
    | SND_CTL_EVENT_REMOVE =>
      match remove_loop helem fuel bag.head? 0 w with
      | .fault f w1 => .fault f w1
      | .ret res w1 =>
        if w1.bags helem = some [] then .ret res { w1 with bags := poke w1.bags helem none }
        else .fault Fault.assertion w1
    | SND_CTL_EVENT_ADD => .fault Fault.assertion w

/-- The class loop of `hctl_event_handler`, carrying `res`. -/
def hctl_event_loop (event : snd_ctl_event_type_t) (elem : Nat) :
    List Nat → Int → World → Outcome
  | [], res, w => .ret res w
  | c :: rest, res, w =>
    match call_class_event w c event elem none with
    | .fault f w1 => .fault f w1
    | .ret err w1 => hctl_event_loop event elem rest (if err < 0 then err else res) w1

/-- The function `hctl_event_handler(hctl, event, elem)`; `bag_new_result` is
what `bag_new` returns (negative when the allocation fails).  The registry found
in the private slot of `hctl` is the registry of the world. -/
def hctl_event_handler (w : World) (bag_new_result : Int) (_hctl : Nat)
    (event : snd_ctl_event_type_t) (elem : Nat) : Outcome :=
  match event with
  | SND_CTL_EVENT_ADD =>
    if bag_new_result < 0 then .ret bag_new_result w
    else hctl_event_loop event elem w.mixer.classes 0 { w with bags := poke w.bags elem (some []) }
  | _ => .fault Fault.assertion w

/-! ## Multi-slave loops -/

/-- One throw call made from inside a Source pump. -/
def run_throw (w : World) : Throw → Outcome
  | Throw.mixer event elem => snd_mixer_throw_event w event elem
  | Throw.elem elem event => snd_mixer_elem_throw_event w elem event

/-- The throw calls of one pump, in order; their results go to the caller inside
the Source and are not seen by the registry loop. -/
def run_throws : List Throw → World → Outcome
  | [], w => .ret 0 w
  | t :: rest, w =>
    match run_throw w t with
    | .fault f w1 => .fault f w1
    | .ret _ w1 => run_throws rest w1

/-- Modelled from the spec: `snd_hctl_handle_events(hctl)`, the pump of a Source. -/
def snd_hctl_handle_events (w : World) (hctl : Nat) : Outcome :=
  match w.hctl_mem hctl with
  | none => .fault Fault.undefined_behaviour w
  | some h =>
    match run_throws h.handle_events_throws
        { w with log := w.log ++ [Call.hctl_handle_events hctl] } with
    | .fault f w1 => .fault f w1
    | .ret _ w1 => .ret h.handle_events_result w1

/-- The slave loop of `snd_mixer_handle_events`. -/
def handle_events_loop : List snd_mixer_slave_t → World → Outcome
  | [], w => .ret (to_int w.mixer.events) w
  | s :: rest, w =>
    match snd_hctl_handle_events w s.hctl with
    | .fault f w1 => .fault f w1
    | .ret err w1 => if err < 0 then .ret err w1 else handle_events_loop rest w1

/-- The function `snd_mixer_handle_events(mixer)`. -/
def snd_mixer_handle_events (w : World) : Outcome :=
  handle_events_loop w.mixer.slaves { w with mixer := { w.mixer with events := 0 } }

/-- The return value of a run, if it returned. -/
def Outcome.returned : Outcome → Option Int
  | .ret v _ => some v
  | .fault _ _ => none

/-- The world in which a run ended. -/
def Outcome.world : Outcome → World
  | .ret _ w => w
  | .fault _ w => w

/-- The fault of a run, if it ended in one. -/
def Outcome.faulted : Outcome → Option Fault
  | .ret _ _ => none
  | .fault f _ => some f

/-- Run `f` in the world reached by a run that returned. -/
def Outcome.and_then (o : Outcome) (f : World → Outcome) : Outcome :=
  match o with
  | .ret _ w => f w
  | .fault k w => .fault k w

/-- The last negative value of a list of handler results, `res` if none is negative. -/
def last_negative_from (res : Int) (rets : List Int) : Int :=
  ((rets.filter fun r => r < 0).getLast?).getD res

/-- The last negative value of a list of handler results, `0` if none is negative. -/
def last_negative (rets : List Int) : Int := last_negative_from 0 rets

/-- The class that owns the element at address `m` (`melem->class`). -/
def owning_class (w : World) (m : Nat) : Nat :=
  ((w.elem_mem m).map fun e => e.class_).getD 0

/-- The number of throw calls the pump of a slave causes. -/
def throw_count (w : World) (s : snd_mixer_slave_t) : Nat :=
  ((w.hctl_mem s.hctl).map fun h => h.handle_events_throws.length).getD 0

/-- A throw call that can be carried out: an element-level throw needs a live
element whose class is registered. -/
def valid_throw (w : World) : Throw → Prop
  | Throw.mixer _ _ => True
  | Throw.elem e _ => ∃ er, w.elem_mem e = some er ∧ er.class_ ∈ w.mixer.classes

/-- The Source operations recorded in a log. -/
def source_calls (log : List Call) : List Call :=
  log.filter fun c =>
    match c with
    | Call.hctl_handle_events _ => true
    | Call.hctl_load _ => true
    | _ => false

/-! ## Frames and slave predicates -/

/-- Two worlds with the same element, class and Source records and the same
class list: what a throw call leaves untouched. -/
def same_objects (w w1 : World) : Prop :=
  w1.elem_mem = w.elem_mem ∧ w1.hctl_mem = w.hctl_mem ∧ w1.mixer.classes = w.mixer.classes

/-- A slave whose Source is live and whose pump makes only throw calls that can
be carried out. -/
def pump_ready (w : World) (s : snd_mixer_slave_t) : Prop :=
  ∃ h, w.hctl_mem s.hctl = some h ∧ ∀ t ∈ h.handle_events_throws, valid_throw w t

/-- The result of the pump of a slave (`0` for a dangling Source pointer). -/
def pump_result (w : World) (s : snd_mixer_slave_t) : Int :=
  ((w.hctl_mem s.hctl).map fun h => h.handle_events_result).getD 0

/-- A class without event handler whose comparator reports every pair as equal. -/
def plain_class : snd_mixer_class_t :=
  { event := none, compare := some fun _ _ => 0, private_free := false }

/-- An element record of the given class and weight, with a callback that
returns `5` and a destructor hook. -/
def plain_elem (class_ : Nat) (weight : Int) : snd_mixer_elem_t :=
  { class_ := class_, compare_weight := weight, callback := some fun _ _ => 5,
    private_free := true }

/-- A world around a registry: no Sources, no bags, empty log. -/
def plain_world (mixer : snd_mixer_t) (elem_mem : Nat → Option snd_mixer_elem_t) : World :=
  { mixer := mixer, elem_mem := elem_mem,
    class_mem := fun p => if p = 100 ∨ p = 200 then some plain_class else none,
    hctl_mem := fun _ => none, bags := fun _ => none, log := [] }

/-- A freshly opened registry with the classes `100` and `200` registered, and
two allocated elements, at `0x1010` (weight 1) and at `0x2020` (weight 2), that
were never inserted (their class pointer is null). -/
def fresh_world : World :=
  plain_world { snd_mixer_open_mixer with classes := [100, 200] }
    fun p => if p = 4112 then some (plain_elem 0 1)
             else if p = 8224 then some (plain_elem 0 2) else none

/-- The world after `snd_mixer_elem_add` of `0x1010` to the fresh registry has
failed because the array could not grow: the registry is still empty, the
element has its class pointer set. -/
def unplaced_world : World := (snd_mixer_elem_add fresh_world 4112 100 false).world

/-- The world after `snd_mixer_elem_add` of the element `0x1010` to the fresh registry. -/
def one_elem_world : World := (snd_mixer_elem_add fresh_world 4112 100 true).world

/-- A consistent registry of two elements of class `100`: the array (capacity
32) and the list both hold `0x1010` (weight 1), then `0x2020` (weight 2). -/
def two_elem_world : World :=
  plain_world
    { snd_mixer_open_mixer with
      classes := [100, 200], elems := [4112, 8224],
      pelems := ptr_bytes 4112 ++ ptr_bytes 8224 ++ List.replicate 240 none,
      count := 2, alloc := 32 }
    fun p => if p = 4112 then some (plain_elem 100 1)
             else if p = 8224 then some (plain_elem 100 2) else none

/-- A consistent registry of two elements of two classes: `0x1010` (class `200`,
weight 1), then `0x1020` (class `100`, weight 2). -/
def two_class_world : World :=
  plain_world
    { snd_mixer_open_mixer with
      classes := [100, 200], elems := [4112, 4128],
      pelems := ptr_bytes 4112 ++ ptr_bytes 4128 ++ List.replicate 240 none,
      count := 2, alloc := 32 }
    fun p => if p = 4112 then some (plain_elem 200 1)
             else if p = 4128 then some (plain_elem 100 2) else none

/-- A class whose event handler returns `r` and leaves the bag alone. -/
def answering_class (r : Int) : snd_mixer_class_t :=
  { event := some fun _ _ _ bag => (r, bag), compare := none, private_free := false }

/-- A class whose event handler returns `r` and detaches the element it is called for. -/
def detaching_class (r : Int) : snd_mixer_class_t :=
  { event := some fun _ _ melem bag =>
      (r, match melem with
          | some m => bag.erase m
          | none => bag),
    compare := none, private_free := false }

/-- A world for the dispatchers: the classes `k100` (at `100`) and `k200` (at
`200`) are registered in that order; the element `0x1010` belongs to class `100`
and `0x2020` to class `200`; both are attached to the handle `7`, in that order. -/
def dispatch_world (k100 k200 : snd_mixer_class_t) : World :=
  { mixer := { snd_mixer_open_mixer with classes := [100, 200] },
    elem_mem := fun p => if p = 4112 then some (plain_elem 100 1)
                         else if p = 8224 then some (plain_elem 200 2) else none,
    class_mem := fun p => if p = 100 then some k100 else if p = 200 then some k200 else none,
    hctl_mem := fun _ => none,
    bags := fun h => if h = 7 then some [4112, 8224] else none,
    log := [] }

/-- A world with three slaves, attached in the order `50`, `60`, `70`.  The pump
of `50` causes two throw calls, that of `60` one and that of `70` none; their
results, and those of `load`, are the arguments.  The counter starts at `77`. -/
def slave_world (r50 r60 r70 l50 l60 l70 : Int) : World :=
  { mixer := { snd_mixer_open_mixer with
               slaves := [{ hctl := 50 }, { hctl := 60 }, { hctl := 70 }],
               classes := [100], events := 77 },
    elem_mem := fun p => if p = 4112 then some (plain_elem 100 1) else none,
    class_mem := fun p => if p = 100 then some plain_class else none,
    hctl_mem := fun p =>
      if p = 50 then
        some { name := "hw:0",
               handle_events_throws :=
                 [Throw.mixer SND_CTL_EVENT_ADD 4112, Throw.elem 4112 SND_CTL_EVENT_VALUE],
               handle_events_result := r50, load_result := l50 }
      else if p = 60 then
        some { name := "hw:1", handle_events_throws := [Throw.elem 4112 SND_CTL_EVENT_INFO],
               handle_events_result := r60, load_result := l60 }
      else if p = 70 then
        some { name := "hw:2", handle_events_throws := [], handle_events_result := r70,
               load_result := l70 }
      else none,
    bags := fun _ => none,
    log := [] }

/-- A world with one slave whose pump causes `n` registry-level throw calls and
returns `0`. -/
def flood_world (n : Nat) : World :=
  { mixer := { snd_mixer_open_mixer with slaves := [{ hctl := 50 }] },
    elem_mem := fun _ => none,
    class_mem := fun _ => none,
    hctl_mem := fun p =>
      if p = 50 then
        some { name := "hw:0",
               handle_events_throws := List.replicate n (Throw.mixer SND_CTL_EVENT_ADD 0),
               handle_events_result := 0, load_result := 0 }
      else none,
    bags := fun _ => none,
    log := [] }

/-- The registry holding the element `0x1010`, with the event counter at
`UINT_MAX`: `4294967294` more throw calls were made since the counter was last
reset. -/
def saturated_world : World :=
  { one_elem_world with mixer := { one_elem_world.mixer with events := 4294967295 } }

/-! ## Slave detachment and class registration -/

/-- Modelled from the spec: `snd_hctl_close(hctl)` releases the Source. -/
def snd_hctl_close (w : World) (hctl : Nat) : World :=
  { w with hctl_mem := poke w.hctl_mem hctl none, log := w.log ++ [Call.hctl_close hctl] }

/-- The loop of `snd_mixer_detach`; `before` holds the slaves already passed,
the list argument those still to visit.  `strcmp(...) == 0` is equality of the
two names. -/
def detach_loop (name : String) :
    List snd_mixer_slave_t → List snd_mixer_slave_t → World → Outcome
  | _, [], w => .ret (-ENOENT) w
  | before, s :: rest, w =>
    match w.hctl_mem s.hctl with
    | none => .fault Fault.undefined_behaviour w
    | some h =>
      if name = h.name then
        .ret 0 { snd_hctl_close w s.hctl with
                 mixer := { w.mixer with slaves := before ++ rest } }
      else detach_loop name (before ++ [s]) rest w

/-- The function `snd_mixer_detach(mixer, name)`. -/
def snd_mixer_detach (w : World) (name : String) : Outcome :=
  detach_loop name [] w.mixer.slaves w

/-- The `while (elem)` loop of `snd_mixer_class_register` over the handles of
one Source. -/
def class_register_handles (class_ : Nat) : List Nat → World → Outcome
  | [], w => .ret 0 w
  | h :: rest, w =>
    match call_class_event w class_ SND_CTL_EVENT_ADD h none with
    | .fault f w1 => .fault f w1
    | .ret err w1 => if err < 0 then .ret err w1 else class_register_handles class_ rest w1

/-- The slave loop of `snd_mixer_class_register`.  Modelled from the spec:
`handles hctl` is the sequence of low-level handles that `snd_hctl_first_elem`
and `snd_hctl_elem_next` produce for the Source `hctl`. -/
def class_register_slaves (class_ : Nat) (handles : Nat → List Nat) :
    List snd_mixer_slave_t → World → Outcome
  | [], w => .ret 0 w
  | s :: rest, w =>
    match w.hctl_mem s.hctl with
    | none => .fault Fault.undefined_behaviour w
    | some _ =>
      match class_register_handles class_ (handles s.hctl) w with
      | .fault f w1 => .fault f w1
      | .ret err w1 =>
        if err < 0 then .ret err w1 else class_register_slaves class_ handles rest w1

/-- The function `snd_mixer_class_register(class, mixer)`. -/
def snd_mixer_class_register (w : World) (class_ : Nat) (handles : Nat → List Nat) : Outcome :=
  match w.class_mem class_ with
  | none => .fault Fault.undefined_behaviour w
  | some k =>
    let w1 : World :=
      { w with mixer := { w.mixer with classes := list_add_tail_head class_ w.mixer.classes } }
    match k.event with
    | none => .ret 0 w1
    | some _ => class_register_slaves class_ handles w1.mixer.slaves w1

/-- The handles of all slaves: slaves in list order, handles in Source order. -/
def slave_handles (handles : Nat → List Nat) : List snd_mixer_slave_t → List Nat
  | [] => []
  | s :: rest => handles s.hctl ++ slave_handles handles rest

/-- The results of a dispatch that stops at the first negative result: either
one non-negative result per call to make and the overall result `0`, or a run
of non-negative results followed by the negative overall result. -/
def stops_at_first_negative (n : Nat) (rets : List Int) (r : Int) : Prop :=
  (rets.length = n ∧ (∀ x ∈ rets, 0 ≤ x) ∧ r = 0)
    ∨ (∃ init, rets = init ++ [r] ∧ r < 0 ∧ (∀ x ∈ init, 0 ≤ x) ∧ rets.length ≤ n)

/-- A class whose event handler answers `-4` for the handle `3` and `0` for
every other handle, and leaves the bag alone. -/
def picky_class : snd_mixer_class_t :=
  { event := some fun _ h _ bag => (if h = 3 then -4 else 0, bag), compare := none,
    private_free := false }

/-- The world of three slaves with, besides the registered class `100`, the
record of a class at `300` that is not registered yet. -/
def register_world : World :=
  { slave_world 0 0 0 0 0 0 with
    class_mem := fun p => if p = 100 then some plain_class
                          else if p = 300 then some picky_class else none }

/-- The handles of the three Sources: `1, 2` for `50`, `3, 4` for `60`, `5` for `70`. -/
def example_handles (hctl : Nat) : List Nat :=
  if hctl = 50 then [1, 2] else if hctl = 60 then [3, 4] else [5]

/-! ## The default comparator with its class-comparator calls -/

/-- The function `snd_mixer_compare_default(c1, c2)` together with the calls of
class comparators it makes, each recorded as `(class, c1, c2)`. -/
def snd_mixer_compare_default_traced (w : World) (c1 c2 : Nat) :
    Except Fault Int × List (Nat × Nat × Nat) :=
  match w.elem_mem c1, w.elem_mem c2 with
  | some e1, some e2 =>
    let d := wrap_int (e1.compare_weight - e2.compare_weight)
    if d ≠ 0 then (.ok d, [])
    else if e1.class_ = 0 then (.error Fault.assertion, [])
    else
      match w.class_mem e1.class_ with
      | none => (.error Fault.undefined_behaviour, [])
      | some k1 =>
        match k1.compare with
        | none => (.error Fault.assertion, [])
        | some f =>
          if e2.class_ = 0 then (.error Fault.assertion, [])
          else
            match w.class_mem e2.class_ with
            | none => (.error Fault.undefined_behaviour, [])
            | some k2 =>
              match k2.compare with
              | none => (.error Fault.assertion, [])
              | some _ =>
                if e1.class_ = e2.class_ then (.ok (f c1 c2), [(e1.class_, c1, c2)])
                else (.error Fault.assertion, [])
  | _, _ => (.error Fault.undefined_behaviour, [])

/-- A world with elements of extreme weight: `0x1010` has weight `INT_MIN`,
`0x2020` has weight `1`; both belong to class `100`. -/
def extreme_world : World :=
  plain_world { snd_mixer_open_mixer with classes := [100, 200] }
    fun p => if p = 4112 then some (plain_elem 100 (-2147483648))
             else if p = 8224 then some (plain_elem 100 1) else none

/-- A world with three elements of weight `3`: `0x1010` and `0x1020` of class
`100`, `0x2020` of class `200`. -/
def tie_world : World :=
  plain_world { snd_mixer_open_mixer with classes := [100, 200] }
    fun p => if p = 4112 then some (plain_elem 100 3)
             else if p = 4128 then some (plain_elem 100 3)
             else if p = 8224 then some (plain_elem 200 3) else none

/-! ## The binary search with its array reads -/

/-- The loop of `_snd_mixer_find_elem` together with the indices at which it
reads the array, in order. -/
def find_loop_traced (w : World) (elem : Nat) :
    Nat → Nat → Nat → Int → Int → Except Fault (Int × Int) × List Int
  | 0, _, _, _, _ => (.error Fault.out_of_fuel, [])
  | fuel + 1, l, u, c, idx =>
    if l < u then
      let idx1 := to_int ((l + u) % 4294967296 / 2)
      match read_ptr w.mixer.pelems idx1 with
      | none => (.error Fault.undefined_behaviour, [idx1])
      | some p =>
        match call_compare w elem p with
        | .error f => (.error f, [idx1])
        | .ok c1 =>
          if c1 < 0 then
            ((find_loop_traced w elem fuel l (to_unsigned idx1) c1 idx1).1,
              idx1 :: (find_loop_traced w elem fuel l (to_unsigned idx1) c1 idx1).2)
          else if c1 > 0 then
            ((find_loop_traced w elem fuel (to_unsigned (wrap_int (idx1 + 1))) u c1 idx1).1,
              idx1 :: (find_loop_traced w elem fuel (to_unsigned (wrap_int (idx1 + 1))) u c1
                idx1).2)
          else (.ok (idx1, c1), [idx1])
    else (.ok (idx, c), [])

/-- A comparator that is a consistent order: swapping the arguments swaps the
sign, and "not greater" is transitive. -/
def consistent_order (f : Nat → Nat → Int) : Prop :=
  (∀ x y, f x y < 0 ↔ 0 < f y x) ∧ (∀ x y z, f x y ≤ 0 → f y z ≤ 0 → f x z ≤ 0)

/-- The memory block whose first `n` cells hold the pointers `a 0`, …, `a (n - 1)`. -/
def mem_of_cells (a : Nat → Nat) : Nat → List (Option Nat)
  | 0 => []
  | n + 1 => mem_of_cells a n ++ ptr_bytes (a n)

/-- The comparator that orders elements by address. -/
def compare_by_address (x y : Nat) : Int :=
  if x < y then -1 else if y < x then 1 else 0

/-- A registry of `2863311530` elements, ordered by address: cell `i` of the
array holds the address `i + 1`; the capacity is the next multiple of 32. -/
def huge_world : World :=
  plain_world
    { snd_mixer_open_mixer with
      classes := [100],
      elems := (List.range 2863311530).map fun i => i + 1,
      pelems := mem_of_cells (fun i => i + 1) 2863311530 ++ List.replicate 176 none,
      count := 2863311530, alloc := 2863311552,
      compare := snd_mixer_compare_t.custom compare_by_address }
    fun _ => none

/-- A consistent registry of three elements ordered by address: `0x10`, `0x20`, `0x30`. -/
def three_elem_world : World :=
  plain_world
    { snd_mixer_open_mixer with
      classes := [100], elems := [16, 32, 48],
      pelems := mem_of_cells (fun i => 16 * (i + 1)) 3 ++ List.replicate 232 none,
      count := 3, alloc := 32,
      compare := snd_mixer_compare_t.custom compare_by_address }
    fun p => if p = 16 ∨ p = 32 ∨ p = 48 ∨ p = 40 then some (plain_elem 100 0) else none

/-! ## Re-sorting -/

/-- The argument `compar` of `qsort` in `snd_mixer_sort`, applied to two array
members given by their bytes: `mixer->compare` on the pointers read at the
start of each member. -/
def sort_compar (w : World) (a b : List (Option Nat)) : Except Fault Int :=
  if a.length < 8 ∨ b.length < 8 then .error Fault.undefined_behaviour
  else
    match bytes_ptr (a.take 8), bytes_ptr (b.take 8) with
    | some p, some q => call_compare w p q
    | _, _ => .error Fault.undefined_behaviour

/-- Insertion of one member into a sorted run of members. -/
def insert_member (w : World) (x : List (Option Nat)) :
    List (List (Option Nat)) → Except Fault (List (List (Option Nat)))
  | [] => .ok [x]
  | y :: ys =>
    match sort_compar w x y with
    | .error f => .error f
    | .ok c =>
      if c ≤ 0 then .ok (x :: y :: ys)
      else
        match insert_member w x ys with
        | .error f => .error f
        | .ok r => .ok (y :: r)

/-- Sorting of a list of members by insertion. -/
def sort_members (w : World) :
    List (List (Option Nat)) → Except Fault (List (List (Option Nat)))
  | [] => .ok []
  | x :: xs =>
    match sort_members w xs with
    | .error f => .error f
    | .ok s => insert_member w x s

/-- The bytes of a list of members, one after the other. -/
def concat_members : List (List (Option Nat)) → List (Option Nat)
  | [] => []
  | x :: xs => x ++ concat_members xs

/-- The C library call `qsort(base, nmemb, size, compar)` on the array block:
the block is taken as `nmemb` members of `size` bytes each, which are put in
the order given by `compar`; fewer than two members are left alone.  The C
library fixes neither the algorithm nor the sequence of comparisons; the
members are sorted by insertion here. -/
def qsort (w : World) (mem : List (Option Nat)) (nmemb size : Nat) :
    Except Fault (List (Option Nat)) :=
  if nmemb < 2 then .ok mem
  else if mem.length < nmemb * size then .error Fault.undefined_behaviour
  else
    match sort_members w
        ((List.range nmemb).map fun i => (mem.drop (i * size)).take size) with
    | .error f => .error f
    | .ok members => .ok (concat_members members ++ mem.drop (nmemb * size))

/-- The loop of `snd_mixer_sort` that rebuilds the list: `list_add_tail` of
`pelems[k]` for each `k` of the list argument. -/
def sort_relink : List Nat → World → Outcome
  | [], w => .ret 0 w
  | k :: rest, w =>
    match read_ptr w.mixer.pelems (k : Int) with
    | none => .fault Fault.undefined_behaviour w
    | some p =>
      match w.elem_mem p with
      | none => .fault Fault.undefined_behaviour w
      | some _ =>
        sort_relink rest
          { w with mixer := { w.mixer with elems := list_add_tail_head p w.mixer.elems } }

/-- The function `snd_mixer_sort(mixer)`; `sizeof_elem` is
`sizeof(snd_mixer_elem_t)`, the member size the source passes to `qsort`. -/
def snd_mixer_sort (w : World) (sizeof_elem : Nat) : Outcome :=
  let w1 : World := { w with mixer := { w.mixer with elems := [] } }
  match qsort w1 w1.mixer.pelems w1.mixer.count sizeof_elem with
  | .error f => .fault f w1
  | .ok mem =>
    sort_relink (List.range w1.mixer.count) { w1 with mixer := { w1.mixer with pelems := mem } }

/-- The function `snd_mixer_set_compare(mixer, msort)`; `none` is the null
comparator. -/
def snd_mixer_set_compare (w : World) (msort : Option (Nat → Nat → Int)) (sizeof_elem : Nat) :
    Outcome :=
  let msort_old := w.mixer.compare
  let w1 : World :=
    { w with mixer := { w.mixer with
        compare := match msort with
                   | none => snd_mixer_compare_t.snd_mixer_compare_default
                   | some f => snd_mixer_compare_t.custom f } }
  match snd_mixer_sort w1 sizeof_elem with
  | .fault f w2 => .fault f w2
  | .ret err w2 =>
    if err < 0 then .ret err { w2 with mixer := { w2.mixer with compare := msort_old } }
    else .ret 0 w2

/-- The comparator that orders elements by descending address. -/
def compare_by_address_desc (x y : Nat) : Int := compare_by_address y x

/-! # Theorems -/

set_option maxRecDepth 100000

/-! ## Auxiliary lemmas -/

@[simp] theorem poke_same {α : Type} (mem : Nat → Option α) (p : Nat) (v : Option α) :
    poke mem p v p = v := by
  simp [poke]

theorem poke_other {α : Type} (mem : Nat → Option α) (p q : Nat) (v : Option α) (h : q ≠ p) :
    poke mem p v q = mem q := by
  simp [poke, h]

theorem last_negative_from_cons (res r : Int) (rets : List Int) :
    last_negative_from res (r :: rets) = last_negative_from (if r < 0 then r else res) rets := by
  unfold last_negative_from
  by_cases hr : r < 0
  · simp only [List.filter_cons, hr, decide_True, if_true]
    cases hf : (rets.filter fun r => decide (r < 0)) with
    | nil => simp
    | cons a l => simp [List.getLast?_cons_cons, List.getLast?_eq_getLast]
  · simp [List.filter_cons, hr]

/-- A class-handler call on a class that has a handler returns, appends one log
entry and leaves the record maps and the registry alone. -/
theorem call_class_event_ret (w : World) (cls : Nat) (event : snd_ctl_event_type_t)
    (helem : Nat) (melem : Option Nat) (k : snd_mixer_class_t)
    (hd : snd_ctl_event_type_t → Nat → Option Nat → List Nat → Int × List Nat)
    (hk : w.class_mem cls = some k) (hh : k.event = some hd) :
    call_class_event w cls event helem melem =
      Outcome.ret (hd event helem melem ((w.bags helem).getD [])).1
        { w with bags := poke w.bags helem
                   ((w.bags helem).map fun _ => (hd event helem melem ((w.bags helem).getD [])).2),
                 log := w.log ++ [Call.class_event cls event helem melem
                   (hd event helem melem ((w.bags helem).getD [])).1] } := by
  simp [call_class_event, hk, hh]

theorem hctl_event_loop_spec (event : snd_ctl_event_type_t) (elem : Nat) (cs : List Nat) :
    ∀ (res : Int) (w : World),
      (∀ c ∈ cs, ∃ k hd, w.class_mem c = some k ∧ k.event = some hd) →
      ∃ w1 rets, hctl_event_loop event elem cs res w = Outcome.ret (last_negative_from res rets) w1
        ∧ rets.length = cs.length
        ∧ w1.log = w.log ++ List.zipWith (fun c r => Call.class_event c event elem none r) cs rets := by
  induction cs with
  | nil =>
    intro res w _
    exact ⟨w, [], by simp [hctl_event_loop, last_negative_from], rfl, by simp⟩
  | cons c rest ih =>
    intro res w h
    obtain ⟨k, hd, hk, hh⟩ := h c (List.mem_cons_self _ _)
    have hcall := call_class_event_ret w c event elem none k hd hk hh
    obtain ⟨w1, rets, hrun, hlen, hlog⟩ :=
      ih (if (hd event elem none ((w.bags elem).getD [])).1 < 0
            then (hd event elem none ((w.bags elem).getD [])).1 else res)
        { w with bags := poke w.bags elem
                   ((w.bags elem).map fun _ => (hd event elem none ((w.bags elem).getD [])).2),
                 log := w.log ++ [Call.class_event c event elem none
                   (hd event elem none ((w.bags elem).getD [])).1] }
        (fun c' hc' => h c' (List.mem_cons_of_mem _ hc'))
    refine ⟨w1, (hd event elem none ((w.bags elem).getD [])).1 :: rets, ?_, by simp [hlen], ?_⟩
    · rw [last_negative_from_cons]
      simp only [hctl_event_loop, hcall]
      exact hrun
    · rw [hlog]
      simp

theorem remove_loop_spec (helem : Nat) (bag : List Nat) :
    ∀ (fuel : Nat) (res : Int) (w : World),
      w.bags helem = some bag → bag.length < fuel →
      (∀ m ∈ bag, ∃ e k hd, w.elem_mem m = some e ∧ w.class_mem e.class_ = some k
          ∧ k.event = some hd
          ∧ ∀ b, (hd SND_CTL_EVENT_REMOVE helem (some m) b).2 = b.erase m) →
      ∃ w1 rets, remove_loop helem fuel bag.head? res w
            = Outcome.ret (last_negative_from res rets) w1
        ∧ rets.length = bag.length
        ∧ w1.bags helem = some []
        ∧ w1.log = w.log ++ List.zipWith
            (fun m r => Call.class_event (owning_class w m) SND_CTL_EVENT_REMOVE helem (some m) r)
            bag rets := by
  induction bag with
  | nil =>
    intro fuel res w hb hf _
    cases fuel with
    | zero => simp at hf
    | succ f => exact ⟨w, [], by simp [remove_loop, last_negative_from], rfl, hb, by simp⟩
  | cons m rest ih =>
    intro fuel res w hb hf h
    cases fuel with
    | zero => simp at hf
    | succ f =>
      obtain ⟨e, k, hd, he, hk, hh, hdet⟩ := h m (List.mem_cons_self _ _)
      have hcall := call_class_event_ret w e.class_ SND_CTL_EVENT_REMOVE helem (some m) k hd hk hh
      rw [hb] at hcall
      simp only [Option.getD_some, Option.map_some'] at hcall
      have hbag2 : (hd SND_CTL_EVENT_REMOVE helem (some m) (m :: rest)).2 = rest := by
        rw [hdet]; simp
      obtain ⟨w1, rets, hrun, hlen, hempty, hlog⟩ :=
        ih f (if (hd SND_CTL_EVENT_REMOVE helem (some m) (m :: rest)).1 < 0
              then (hd SND_CTL_EVENT_REMOVE helem (some m) (m :: rest)).1 else res)
          { w with bags := poke w.bags helem
                     (some (hd SND_CTL_EVENT_REMOVE helem (some m) (m :: rest)).2),
                   log := w.log ++ [Call.class_event e.class_ SND_CTL_EVENT_REMOVE helem (some m)
                     (hd SND_CTL_EVENT_REMOVE helem (some m) (m :: rest)).1] }
          (by simp [hbag2])
          (by simpa using hf)
          (fun m' hm' => h m' (List.mem_cons_of_mem _ hm'))
      refine ⟨w1, (hd SND_CTL_EVENT_REMOVE helem (some m) (m :: rest)).1 :: rets,
        ?_, by simp [hlen], hempty, ?_⟩
      · rw [last_negative_from_cons]
        simp only [List.head?_cons, remove_loop, hb, bag_next, if_true, call_elem_class_event,
          he, hcall]
        exact hrun
      · rw [hlog]
        simp [owning_class, he]

theorem same_objects_refl (w : World) : same_objects w w := ⟨rfl, rfl, rfl⟩

theorem same_objects_trans {w w1 w2 : World} (h1 : same_objects w w1) (h2 : same_objects w1 w2) :
    same_objects w w2 :=
  ⟨h2.1.trans h1.1, h2.2.1.trans h1.2.1, h2.2.2.trans h1.2.2⟩

theorem valid_throw_of_same {w w1 : World} (h : same_objects w w1) (t : Throw)
    (ht : valid_throw w t) : valid_throw w1 t := by
  cases t with
  | mixer ev e => trivial
  | elem e ev =>
    obtain ⟨er, he, hc⟩ := ht
    exact ⟨er, by rw [h.1]; exact he, by rw [h.2.2]; exact hc⟩

theorem pump_ready_of_same {w w1 : World} (h : same_objects w w1) (s : snd_mixer_slave_t)
    (hs : pump_ready w s) : pump_ready w1 s := by
  obtain ⟨hc, hm, ht⟩ := hs
  exact ⟨hc, by rw [h.2.1]; exact hm, fun t htm => valid_throw_of_same h t (ht t htm)⟩

theorem throw_count_of_same {w w1 : World} (h : same_objects w w1) (s : snd_mixer_slave_t) :
    throw_count w1 s = throw_count w s := by
  simp [throw_count, h.2.1]

theorem pump_result_of_same {w w1 : World} (h : same_objects w w1) (s : snd_mixer_slave_t) :
    pump_result w1 s = pump_result w s := by
  simp [pump_result, h.2.1]

theorem source_calls_append (l1 l2 : List Call) :
    source_calls (l1 ++ l2) = source_calls l1 ++ source_calls l2 := by
  simp [source_calls]

theorem to_int_congr {a b : Nat} (h : a % 4294967296 = b % 4294967296) : to_int a = to_int b := by
  simp only [to_int, h]

/-- One throw call that can be carried out returns, adds one to the counter
(modulo `2^32`) and records no Source operation. -/
theorem run_throw_spec (w : World) (t : Throw) (ht : valid_throw w t) :
    ∃ v w1, run_throw w t = Outcome.ret v w1
      ∧ w1.mixer.events % 4294967296 = (w.mixer.events + 1) % 4294967296
      ∧ same_objects w w1 ∧ source_calls w1.log = source_calls w.log := by
  cases t with
  | mixer ev e =>
    simp only [run_throw, snd_mixer_throw_event]
    cases hcb : w.mixer.callback with
    | none => exact ⟨_, _, rfl, Nat.mod_mod _ _, ⟨rfl, rfl, rfl⟩, rfl⟩
    | some cb =>
      exact ⟨_, _, rfl, Nat.mod_mod _ _, ⟨rfl, rfl, rfl⟩,
        by simp [source_calls_append, source_calls]⟩
  | elem e ev =>
    obtain ⟨er, he, hc⟩ := ht
    simp only [run_throw, snd_mixer_elem_throw_event, he, hc, if_true]
    cases hcb : er.callback with
    | none => exact ⟨_, _, rfl, Nat.mod_mod _ _, ⟨rfl, rfl, rfl⟩, rfl⟩
    | some cb =>
      exact ⟨_, _, rfl, Nat.mod_mod _ _, ⟨rfl, rfl, rfl⟩,
        by simp [source_calls_append, source_calls]⟩

theorem run_throws_spec (ts : List Throw) :
    ∀ w : World, (∀ t ∈ ts, valid_throw w t) →
      ∃ w1, run_throws ts w = Outcome.ret 0 w1
        ∧ w1.mixer.events % 4294967296 = (w.mixer.events + ts.length) % 4294967296
        ∧ same_objects w w1 ∧ source_calls w1.log = source_calls w.log := by
  induction ts with
  | nil =>
    intro w _
    exact ⟨w, rfl, by simp, same_objects_refl w, rfl⟩
  | cons t rest ih =>
    intro w h
    obtain ⟨v, w1, hrun, hev, hsame, hlog⟩ := run_throw_spec w t (h t (List.mem_cons_self _ _))
    obtain ⟨w2, hrun2, hev2, hsame2, hlog2⟩ :=
      ih w1 (fun t' ht' => valid_throw_of_same hsame t' (h t' (List.mem_cons_of_mem _ ht')))
    refine ⟨w2, by simp [run_throws, hrun, hrun2], ?_, same_objects_trans hsame hsame2,
      hlog2.trans hlog⟩
    rw [hev2, List.length_cons]
    omega

/-- The pump of a ready slave returns the Source's result, advances the counter
by the number of its throw calls and records exactly one Source operation. -/
theorem snd_hctl_handle_events_spec (w : World) (s : snd_mixer_slave_t) (hs : pump_ready w s) :
    ∃ w1, snd_hctl_handle_events w s.hctl = Outcome.ret (pump_result w s) w1
      ∧ w1.mixer.events % 4294967296 = (w.mixer.events + throw_count w s) % 4294967296
      ∧ same_objects w w1
      ∧ source_calls w1.log = source_calls w.log ++ [Call.hctl_handle_events s.hctl] := by
  obtain ⟨h, hm, ht⟩ := hs
  obtain ⟨w1, hrun, hev, hsame, hlog⟩ :=
    run_throws_spec h.handle_events_throws
      { w with log := w.log ++ [Call.hctl_handle_events s.hctl] } ht
  refine ⟨w1, by simp [snd_hctl_handle_events, hm, hrun, pump_result], ?_, hsame, ?_⟩
  · simpa [throw_count, hm] using hev
  · rw [hlog]
    simp [source_calls_append, source_calls]

/-- The slave loop of `snd_mixer_handle_events` when no pump fails. -/
theorem handle_events_loop_ok (slaves : List snd_mixer_slave_t) :
    ∀ w : World, (∀ s ∈ slaves, pump_ready w s ∧ 0 ≤ pump_result w s) →
      ∃ w1, handle_events_loop slaves w
          = Outcome.ret (to_int (w.mixer.events + (slaves.map (throw_count w)).sum)) w1
        ∧ same_objects w w1
        ∧ source_calls w1.log
            = source_calls w.log ++ slaves.map fun s => Call.hctl_handle_events s.hctl := by
  induction slaves with
  | nil =>
    intro w _
    exact ⟨w, by simp [handle_events_loop], same_objects_refl w, by simp⟩
  | cons s rest ih =>
    intro w h
    obtain ⟨hready, hres⟩ := h s (List.mem_cons_self _ _)
    obtain ⟨w1, hrun, hev, hsame, hlog⟩ := snd_hctl_handle_events_spec w s hready
    obtain ⟨w2, hrun2, hsame2, hlog2⟩ :=
      ih w1 (fun s' hs' =>
        ⟨pump_ready_of_same hsame s' (h s' (List.mem_cons_of_mem _ hs')).1,
         by rw [pump_result_of_same hsame]; exact (h s' (List.mem_cons_of_mem _ hs')).2⟩)
    refine ⟨w2, ?_, same_objects_trans hsame hsame2, ?_⟩
    · simp only [handle_events_loop, hrun, not_lt.mpr hres, if_false, hrun2]
      have hc : rest.map (throw_count w1) = rest.map (throw_count w) :=
        List.map_congr_left (fun s' _ => throw_count_of_same hsame s')
      rw [hc]
      simp only [List.map_cons, List.sum_cons]
      congr 1
      apply to_int_congr
      omega
    · rw [hlog2, hlog]
      simp

theorem to_int_small (n : Nat) (h : n < 2147483648) : to_int n = (n : Int) := by
  have h1 : n % 4294967296 = n := Nat.mod_eq_of_lt (by omega)
  simp [to_int, h1, h]

/-- The value `snd_mixer_handle_events` returns when no pump fails: the total
number of throw calls, reduced to an `unsigned int` and converted to `int`. -/
theorem handle_events_wrapped (w : World)
    (h : ∀ s ∈ w.mixer.slaves, pump_ready w s ∧ 0 ≤ pump_result w s) :
    ∃ w1, snd_mixer_handle_events w
        = Outcome.ret (to_int ((w.mixer.slaves.map (throw_count w)).sum)) w1 := by
  have hsame : same_objects w { w with mixer := { w.mixer with events := 0 } } := ⟨rfl, rfl, rfl⟩
  obtain ⟨w1, hrun, _, _⟩ :=
    handle_events_loop_ok w.mixer.slaves { w with mixer := { w.mixer with events := 0 } }
      (fun s hs => ⟨pump_ready_of_same hsame s (h s hs).1,
        by rw [pump_result_of_same hsame]; exact (h s hs).2⟩)
  refine ⟨w1, ?_⟩
  have hc : w.mixer.slaves.map (throw_count { w with mixer := { w.mixer with events := 0 } })
      = w.mixer.slaves.map (throw_count w) :=
    List.map_congr_left (fun s' _ => throw_count_of_same hsame s')
  rw [hc] at hrun
  simpa [snd_mixer_handle_events] using hrun

/-! ## Insertion and removal (C1 – C4) -/

/-- C1, evaluated where the property fails.  On the freshly opened registry both
`snd_mixer_elem_add` calls return `0`; after the second one `count` is 2 and the
traversal list is `[0x1010, 0x2020]`, sorted by weight, but the array holds
`0x1010` followed by a cell that was never assigned: the branch for a non-empty
registry links the element into the list and moves bytes, and never stores the
element into `pelems`. -/
theorem elem_add_second_element_not_stored :
    (snd_mixer_elem_add fresh_world 4112 100 true).returned = some 0
      ∧ one_elem_world.mixer.elems = [4112]
      ∧ array_cells one_elem_world.mixer.pelems 1 = [some 4112]
      ∧ (snd_mixer_elem_add one_elem_world 8224 100 true).returned = some 0
      ∧ (snd_mixer_elem_add one_elem_world 8224 100 true).world.mixer.count = 2
      ∧ (snd_mixer_elem_add one_elem_world 8224 100 true).world.mixer.elems = [4112, 8224]
      ∧ array_cells (snd_mixer_elem_add one_elem_world 8224 100 true).world.mixer.pelems 2
          = [some 4112, none] := by
  decide

/-- C2, evaluated where the property fails.  The registry is empty (an insertion
into the fresh registry has failed with `-ENOMEM`, which leaves the element with
its class pointer set).  The search loop does not run, so `_snd_mixer_find_elem`
reports index `-1` with direction `0`; `snd_mixer_elem_remove` takes that for an
exact match: it does not return `-EINVAL`, it raises the event counter, invokes
the element callback and then unlinks an element that is in no list. -/
theorem elem_remove_on_empty_registry :
    (snd_mixer_elem_add fresh_world 4112 100 false).returned = some (-ENOMEM)
      ∧ unplaced_world.mixer.count = 0
      ∧ unplaced_world.mixer.elems = []
      ∧ unplaced_world.mixer.events = 0
      ∧ _snd_mixer_find_elem unplaced_world 4112 = Except.ok (-1, 0)
      ∧ (snd_mixer_elem_remove unplaced_world 4112).returned = none
      ∧ (snd_mixer_elem_remove unplaced_world 4112).faulted = some Fault.undefined_behaviour
      ∧ (snd_mixer_elem_remove unplaced_world 4112).world.mixer.events = 1
      ∧ (snd_mixer_elem_remove unplaced_world 4112).world.log
          = [Call.elem_callback 4112 SND_CTL_EVENT_REMOVE []] := by
  refine ⟨by decide, by decide, by decide, by decide, rfl, by decide, by decide, by decide,
    by decide⟩

/-- C3, evaluated where the property fails.  The registry holds the single
element `0x1010` (count 1, array and list equal).  Adding `0x2020` and then
removing it does not give the registry back: the element was never stored into
the array, so the search of `snd_mixer_elem_remove` probes a cell that was never
assigned; the element is still in the list and `count` is still 2. -/
theorem elem_add_then_remove_not_undone :
    one_elem_world.mixer.count = 1
      ∧ one_elem_world.mixer.elems = [4112]
      ∧ array_cells one_elem_world.mixer.pelems 1 = [some 4112]
      ∧ ((snd_mixer_elem_add one_elem_world 8224 100 true).and_then
            fun w => snd_mixer_elem_remove w 8224).faulted = some Fault.undefined_behaviour
      ∧ ((snd_mixer_elem_add one_elem_world 8224 100 true).and_then
            fun w => snd_mixer_elem_remove w 8224).world.mixer.count = 2
      ∧ ((snd_mixer_elem_add one_elem_world 8224 100 true).and_then
            fun w => snd_mixer_elem_remove w 8224).world.mixer.elems = [4112, 8224] := by
  decide

/-- C4, evaluated where the property fails.  In the consistent registry
`[0x1010, 0x2020]`, removing `0x1010` (rank 0) delivers the `REMOVE`
notification once while the element is still linked, returns the callback's
result, leaves `count = 1` and the list `[0x2020]`; but the array is compacted
by one byte instead of one cell, so cell 0 holds `0x1020`, the old pointer with
the low byte of `0x2020`, and not `0x2020`. -/
theorem elem_remove_compacts_bytes_not_cells :
    array_cells two_elem_world.mixer.pelems 2 = [some 4112, some 8224]
      ∧ (snd_mixer_elem_remove two_elem_world 4112).returned = some 5
      ∧ (snd_mixer_elem_remove two_elem_world 4112).world.log
          = [Call.elem_callback 4112 SND_CTL_EVENT_REMOVE [4112, 8224]]
      ∧ (snd_mixer_elem_remove two_elem_world 4112).world.mixer.count = 1
      ∧ (snd_mixer_elem_remove two_elem_world 4112).world.mixer.elems = [8224]
      ∧ array_cells (snd_mixer_elem_remove two_elem_world 4112).world.mixer.pelems 1
          = [some 4128] := by
  decide

/-! ## Source-event dispatch (C5 – C7) -/

/-- C5 (amended).  When the bag allocation succeeds and every registered class
has an event handler, `hctl_event_handler` on an `ADD` event returns, having
called the handler of every registered class exactly once, in registration
order, with `(ADD, handle, null)`, whatever the handlers returned; its result is
the last negative value among the handlers' results, or `0` if none is negative. -/
theorem hctl_event_handler_add_calls_every_class (w : World) (bag_new_result : Int)
    (hctl elem : Nat) (hbag : 0 ≤ bag_new_result)
    (hcls : ∀ c ∈ w.mixer.classes, ∃ k hd, w.class_mem c = some k ∧ k.event = some hd) :
    ∃ w1 rets,
      hctl_event_handler w bag_new_result hctl SND_CTL_EVENT_ADD elem
          = Outcome.ret (last_negative rets) w1
        ∧ rets.length = w.mixer.classes.length
        ∧ w1.log = w.log ++ List.zipWith
            (fun c r => Call.class_event c SND_CTL_EVENT_ADD elem none r) w.mixer.classes rets := by
  obtain ⟨w1, rets, hrun, hlen, hlog⟩ :=
    hctl_event_loop_spec SND_CTL_EVENT_ADD elem w.mixer.classes 0
      { w with bags := poke w.bags elem (some []) } hcls
  refine ⟨w1, rets, ?_, hlen, hlog⟩
  simp only [hctl_event_handler, not_lt.mpr hbag, if_false]
  exact hrun

/-- C5 (amended) at a concrete world: two registered classes, the second of
which answers `-2`, and an `ADD` event on the handle `9`. -/
theorem hctl_event_handler_add_calls_every_class_witness :
    ∃ w1 rets,
      hctl_event_handler (dispatch_world (answering_class 0) (answering_class (-2))) 0 50
          SND_CTL_EVENT_ADD 9 = Outcome.ret (last_negative rets) w1
        ∧ rets.length = 2
        ∧ w1.log = List.zipWith (fun c r => Call.class_event c SND_CTL_EVENT_ADD 9 none r)
            [100, 200] rets :=
  hctl_event_handler_add_calls_every_class
    (dispatch_world (answering_class 0) (answering_class (-2))) 0 50 9 (by decide)
    (by
      intro c hc
      have hc2 : c = 100 ∨ c = 200 := by simpa [dispatch_world, snd_mixer_open_mixer] using hc
      rcases hc2 with rfl | rfl
      · exact ⟨_, _, rfl, rfl⟩
      · exact ⟨_, _, rfl, rfl⟩)

/-- C5 as stated fails: with two registered classes whose handlers return `-1`
and `-2`, the handler of the second class is still called after the first one
returned a negative value, and the result is `-2`, not the first negative value. -/
theorem hctl_event_handler_add_continues_after_error :
    (hctl_event_handler (dispatch_world (answering_class (-1)) (answering_class (-2))) 0 50
        SND_CTL_EVENT_ADD 9).returned = some (-2)
      ∧ (hctl_event_handler (dispatch_world (answering_class (-1)) (answering_class (-2))) 0 50
          SND_CTL_EVENT_ADD 9).world.log
        = [Call.class_event 100 SND_CTL_EVENT_ADD 9 none (-1),
           Call.class_event 200 SND_CTL_EVENT_ADD 9 none (-2)] := by
  decide

/-- C6, evaluated where the property fails.  The handle `7` has two attached
elements; on a `VALUE` event the handler of the first one returns `-1`.  The
dispatch stops there (the second member's handler is not called), but the
function returns `0`: the error is kept in a local variable that is dropped. -/
theorem hctl_elem_event_handler_value_drops_error :
    (hctl_elem_event_handler (dispatch_world (answering_class (-1)) (answering_class 0)) 3 7
        SND_CTL_EVENT_VALUE).returned = some 0
      ∧ (hctl_elem_event_handler (dispatch_world (answering_class (-1)) (answering_class 0)) 3 7
          SND_CTL_EVENT_VALUE).world.log
        = [Call.class_event 100 SND_CTL_EVENT_VALUE 7 (some 4112) (-1)]
      ∧ (hctl_elem_event_handler (dispatch_world (answering_class (-1)) (answering_class 0)) 3 7
          SND_CTL_EVENT_INFO).returned = some 0 := by
  decide

/-- C7.  Let `bag` be the bag of a bound handle, every member a live element
whose class has an event handler, and let each handler, on `REMOVE`, detach from
the bag exactly the element it is called for.  Then, given one iteration of fuel
per member and one more, the `REMOVE` loop ends with the bag empty, and
`hctl_elem_event_handler` returns with the bag released, having called the
owning-class handler exactly once per member, in bag order, whatever the
handlers returned; its result is the last negative value among the handlers'
results, or `0` if none is negative. -/
theorem hctl_elem_event_handler_remove_drains_bag (w : World) (fuel helem : Nat)
    (bag : List Nat) (hbag : w.bags helem = some bag) (hfuel : bag.length < fuel)
    (hmem : ∀ m ∈ bag, ∃ e k hd, w.elem_mem m = some e ∧ w.class_mem e.class_ = some k
        ∧ k.event = some hd
        ∧ ∀ b, (hd SND_CTL_EVENT_REMOVE helem (some m) b).2 = b.erase m) :
    ∃ w1 w2 rets,
      remove_loop helem fuel bag.head? 0 w = Outcome.ret (last_negative rets) w1
        ∧ w1.bags helem = some []
        ∧ hctl_elem_event_handler w fuel helem SND_CTL_EVENT_REMOVE
            = Outcome.ret (last_negative rets) w2
        ∧ w2.bags helem = none
        ∧ rets.length = bag.length
        ∧ w2.log = w.log ++ List.zipWith
            (fun m r => Call.class_event (owning_class w m) SND_CTL_EVENT_REMOVE helem (some m) r)
            bag rets := by
  obtain ⟨w1, rets, hrun, hlen, hempty, hlog⟩ := remove_loop_spec helem bag fuel 0 w hbag hfuel hmem
  refine ⟨w1, { w1 with bags := poke w1.bags helem none }, rets, hrun, hempty, ?_, by simp,
    hlen, hlog⟩
  simp only [hctl_elem_event_handler, hbag]
  rw [hrun]
  simp [hempty, last_negative]

/-- C7 at a concrete world: the handle `7` with two attached elements whose
classes detach them, the first answering `-1`. -/
theorem hctl_elem_event_handler_remove_drains_bag_witness :
    ∃ w1 w2 rets,
      remove_loop 7 3 (some 4112) 0 (dispatch_world (detaching_class (-1)) (detaching_class 0))
          = Outcome.ret (last_negative rets) w1
        ∧ w1.bags 7 = some []
        ∧ hctl_elem_event_handler (dispatch_world (detaching_class (-1)) (detaching_class 0)) 3 7
            SND_CTL_EVENT_REMOVE = Outcome.ret (last_negative rets) w2
        ∧ w2.bags 7 = none
        ∧ rets.length = 2
        ∧ w2.log = List.zipWith
            (fun m r => Call.class_event
              (owning_class (dispatch_world (detaching_class (-1)) (detaching_class 0)) m)
              SND_CTL_EVENT_REMOVE 7 (some m) r)
            [4112, 8224] rets :=
  hctl_elem_event_handler_remove_drains_bag
    (dispatch_world (detaching_class (-1)) (detaching_class 0)) 3 7 [4112, 8224] rfl (by decide)
    (by
      intro m hm
      have hm2 : m = 4112 ∨ m = 8224 := by simpa using hm
      rcases hm2 with rfl | rfl
      · exact ⟨_, _, _, rfl, rfl, rfl, fun _ => rfl⟩
      · exact ⟨_, _, _, rfl, rfl, rfl, fun _ => rfl⟩)

/-! ## Multi-slave loops (C8, C9) -/

/-- C8 (amended).  Whatever the prior value of the event counter, if the pump of
every slave returns a non-negative value, the throw calls it causes can be
carried out, and the total number of throw calls is at most `INT_MAX`, then
`snd_mixer_handle_events` returns exactly that total. -/
theorem handle_events_returns_throw_total (w : World)
    (h : ∀ s ∈ w.mixer.slaves, pump_ready w s ∧ 0 ≤ pump_result w s)
    (hsum : (w.mixer.slaves.map (throw_count w)).sum < 2147483648) :
    ∃ w1, snd_mixer_handle_events w
        = Outcome.ret (((w.mixer.slaves.map (throw_count w)).sum : Nat) : Int) w1 := by
  obtain ⟨w1, hrun⟩ := handle_events_wrapped w h
  exact ⟨w1, by rw [hrun, to_int_small _ hsum]⟩

/-- C8 (amended) at a concrete world: three slaves causing two, one and no throw
calls, with the counter at `77` before the call. -/
theorem handle_events_returns_throw_total_witness :
    (slave_world 0 4 0 0 0 0).mixer.events = 77
      ∧ ∃ w1, snd_mixer_handle_events (slave_world 0 4 0 0 0 0) = Outcome.ret 3 w1 :=
  ⟨rfl, handle_events_returns_throw_total (slave_world 0 4 0 0 0 0)
    (by
      intro s hs
      have hs2 : s = { hctl := 50 } ∨ s = { hctl := 60 } ∨ s = { hctl := 70 } := by
        simpa [slave_world, snd_mixer_open_mixer] using hs
      rcases hs2 with rfl | rfl | rfl
      · exact ⟨⟨_, rfl, by
          intro t ht
          have ht2 : t = Throw.mixer SND_CTL_EVENT_ADD 4112
              ∨ t = Throw.elem 4112 SND_CTL_EVENT_VALUE := by simpa using ht
          rcases ht2 with rfl | rfl
          · trivial
          · exact ⟨_, rfl, by decide⟩⟩, by decide⟩
      · exact ⟨⟨_, rfl, by
          intro t ht
          have ht2 : t = Throw.elem 4112 SND_CTL_EVENT_INFO := by simpa using ht
          subst ht2
          exact ⟨_, rfl, by decide⟩⟩, by decide⟩
      · exact ⟨⟨_, rfl, by
          intro t ht
          simp at ht⟩, by decide⟩)
    (by decide)⟩

theorem flood_world_throw_count (n : Nat) :
    ((flood_world n).mixer.slaves.map (throw_count (flood_world n))).sum = n := by
  simp [flood_world, snd_mixer_open_mixer, throw_count]

theorem flood_world_handle_events (n : Nat) :
    ∃ w1, snd_mixer_handle_events (flood_world n) = Outcome.ret (to_int n) w1 := by
  obtain ⟨w1, hrun⟩ := handle_events_wrapped (flood_world n) (by
    intro s hs
    have hs2 : s = { hctl := 50 } := by
      simpa [flood_world, snd_mixer_open_mixer] using hs
    subst hs2
    refine ⟨⟨_, rfl, ?_⟩, by simp [pump_result, flood_world]⟩
    intro t ht
    rw [List.eq_of_mem_replicate ht]
    trivial)
  rw [flood_world_throw_count] at hrun
  exact ⟨w1, hrun⟩

/-- C8 as stated fails: a single slave whose pump causes `2^31` throw calls and
returns `0` makes `snd_mixer_handle_events` return `-2^31`, not `2^31`: the
counter is an `unsigned int` and the result an `int`. -/
theorem handle_events_count_overflows :
    ((flood_world 2147483648).mixer.slaves.map (throw_count (flood_world 2147483648))).sum
        = 2147483648
      ∧ ∃ w1, snd_mixer_handle_events (flood_world 2147483648)
          = Outcome.ret (-2147483648) w1 :=
  ⟨flood_world_throw_count 2147483648, flood_world_handle_events 2147483648⟩

/-- C10, evaluated where the property fails.  The registry holds `0x1010` (class
`200`) and `0x1020` (class `100`).  `snd_mixer_class_unregister` of class `100`
returns `0` and runs the destructor hook for `0x1020` only, but it calls
`snd_mixer_elem_remove` for every element of the list: afterwards the list is
empty, and the element `0x1010` of class `200` has been notified, unlinked and
freed. -/
theorem class_unregister_removes_foreign_elements :
    two_class_world.mixer.elems = [4112, 4128]
      ∧ owning_class two_class_world 4112 = 200
      ∧ owning_class two_class_world 4128 = 100
      ∧ (snd_mixer_class_unregister two_class_world 100).returned = some 0
      ∧ (snd_mixer_class_unregister two_class_world 100).world.mixer.classes = [200]
      ∧ (snd_mixer_class_unregister two_class_world 100).world.mixer.elems = []
      ∧ (snd_mixer_class_unregister two_class_world 100).world.mixer.count = 0
      ∧ ((snd_mixer_class_unregister two_class_world 100).world.elem_mem 4112).isSome = false
      ∧ (snd_mixer_class_unregister two_class_world 100).world.log
          = [Call.elem_callback 4112 SND_CTL_EVENT_REMOVE [4112, 4128],
             Call.elem_private_free 4128,
             Call.elem_callback 4128 SND_CTL_EVENT_REMOVE [4128]] := by
  decide

/-! ## Capacity and notification (C16, C17) -/

theorem snd_mixer_throw_event_alloc (w : World) (event : snd_ctl_event_type_t) (elem : Nat) :
    (snd_mixer_throw_event w event elem).world.mixer.alloc = w.mixer.alloc := by
  simp only [snd_mixer_throw_event]
  cases w.mixer.callback <;> rfl

theorem elem_add_finish_alloc (w : World) (elem : Nat) :
    (elem_add_finish w elem).world.mixer.alloc = w.mixer.alloc := by
  unfold elem_add_finish
  rw [snd_mixer_throw_event_alloc]

theorem elem_add_place_alloc (w : World) (elem : Nat) :
    (elem_add_place w elem).world.mixer.alloc = w.mixer.alloc := by
  unfold elem_add_place
  repeat' split
  all_goals try (dsimp only; repeat' split)
  all_goals first
    | rfl
    | (rw [elem_add_finish_alloc])

/-- C16.  A call of `snd_mixer_elem_add` leaves `alloc` as it was, or, when
`count == alloc` and the allocation succeeds, replaces it by `alloc + 32`
(as an `unsigned int`); whenever `alloc` has grown, it has grown by exactly 32
and `count` was equal to `alloc`.  If `count == alloc` and the growth allocation
fails, the call returns `-ENOMEM`, calls no callback, and leaves the registry
object (count, alloc, array block, lists) exactly as it was. -/
theorem elem_add_grows_by_blocks_or_fails_clean (w : World) (elem class_ : Nat)
    (realloc_ok : Bool) :
    ((snd_mixer_elem_add w elem class_ realloc_ok).world.mixer.alloc = w.mixer.alloc
        ∨ (w.mixer.count = w.mixer.alloc ∧ realloc_ok = true
            ∧ (snd_mixer_elem_add w elem class_ realloc_ok).world.mixer.alloc
                = (w.mixer.alloc + 32) % 4294967296))
      ∧ (w.mixer.alloc < (snd_mixer_elem_add w elem class_ realloc_ok).world.mixer.alloc →
          (snd_mixer_elem_add w elem class_ realloc_ok).world.mixer.alloc = w.mixer.alloc + 32
            ∧ w.mixer.count = w.mixer.alloc)
      ∧ (class_ ∈ w.mixer.classes → (∃ e, w.elem_mem elem = some e) →
          w.mixer.count = w.mixer.alloc → realloc_ok = false →
          ∃ w1, snd_mixer_elem_add w elem class_ realloc_ok = Outcome.ret (-ENOMEM) w1
            ∧ w1.mixer = w.mixer ∧ w1.log = w.log) := by
  have key : (snd_mixer_elem_add w elem class_ realloc_ok).world.mixer.alloc = w.mixer.alloc
      ∨ (w.mixer.count = w.mixer.alloc ∧ realloc_ok = true
          ∧ (snd_mixer_elem_add w elem class_ realloc_ok).world.mixer.alloc
              = (w.mixer.alloc + 32) % 4294967296) := by
    unfold snd_mixer_elem_add
    by_cases hc : class_ ∈ w.mixer.classes
    · cases he : w.elem_mem elem with
      | none => simp [hc, Outcome.world]
      | some e =>
        by_cases hca : w.mixer.count = w.mixer.alloc
        · cases realloc_ok with
          | false => simp [hc, hca, Outcome.world]
          | true =>
            right
            simp only [hc, hca, if_true]
            refine ⟨trivial, trivial, ?_⟩
            rw [elem_add_place_alloc]
        · left
          simp only [hc, hca, if_true, if_false]
          rw [elem_add_place_alloc]
    · simp [hc, Outcome.world]
  refine ⟨key, ?_, ?_⟩
  · intro hlt
    rcases key with h | ⟨hca, _, h⟩
    · omega
    · exact ⟨by omega, hca⟩
  · intro hc he hca hr
    obtain ⟨e, he⟩ := he
    subst hr
    refine ⟨{ w with elem_mem := poke w.elem_mem elem (some { e with class_ := class_ }) },
      ?_, rfl, rfl⟩
    simp [snd_mixer_elem_add, hc, he, hca]

/-- C16 at a concrete world: the first insertion into the fresh registry, with
the growth allocation failing. -/
theorem elem_add_grows_by_blocks_or_fails_clean_witness :
    ∃ w1, snd_mixer_elem_add fresh_world 4112 100 false = Outcome.ret (-ENOMEM) w1
      ∧ w1.mixer = fresh_world.mixer ∧ w1.log = fresh_world.log :=
  (elem_add_grows_by_blocks_or_fails_clean fresh_world 4112 100 false).2.2
    (by decide) ⟨_, rfl⟩ rfl rfl

/-- C17 (amended).  `snd_mixer_throw_event(mixer, ev, e)` returns, with the
counter `events` of the registry incremented as an `unsigned int`: one higher
when it was below `UINT_MAX`, and `0` when it was `UINT_MAX`.  Its result is the
result of the registry callback, called with `(ev, e)`, if one is set, and `0`
without a call otherwise.  `snd_mixer_elem_throw_event(e, ev)` on a live element
of a registered class does the same to the same counter, with the element's
callback called with `(e, ev)`. -/
theorem throw_event_counts_and_forwards (w : World) (event : snd_ctl_event_type_t)
    (elem : Nat) :
    (∃ w1, snd_mixer_throw_event w event elem
          = Outcome.ret (match w.mixer.callback with
                         | some cb => cb event elem
                         | none => 0) w1
        ∧ w1.mixer.events = (w.mixer.events + 1) % 4294967296
        ∧ (w.mixer.events < 4294967295 → w1.mixer.events = w.mixer.events + 1)
        ∧ (w.mixer.events = 4294967295 → w1.mixer.events = 0)
        ∧ w1.log = w.log ++ (match w.mixer.callback with
                             | some _ => [Call.mixer_callback event elem w.mixer.elems]
                             | none => []))
      ∧ (∀ e, w.elem_mem elem = some e → e.class_ ∈ w.mixer.classes →
          ∃ w1, snd_mixer_elem_throw_event w elem event
              = Outcome.ret (match e.callback with
                             | some cb => cb elem event
                             | none => 0) w1
            ∧ w1.mixer.events = (w.mixer.events + 1) % 4294967296
            ∧ (w.mixer.events < 4294967295 → w1.mixer.events = w.mixer.events + 1)
            ∧ (w.mixer.events = 4294967295 → w1.mixer.events = 0)
            ∧ w1.log = w.log ++ (match e.callback with
                                 | some _ => [Call.elem_callback elem event w.mixer.elems]
                                 | none => [])) := by
  refine ⟨?_, ?_⟩
  · simp only [snd_mixer_throw_event]
    cases hcb : w.mixer.callback with
    | none =>
      exact ⟨_, rfl, rfl, fun h => Nat.mod_eq_of_lt (by omega), fun h => by rw [h], by simp⟩
    | some cb =>
      exact ⟨_, rfl, rfl, fun h => Nat.mod_eq_of_lt (by omega), fun h => by rw [h], rfl⟩
  · intro e he hc
    simp only [snd_mixer_elem_throw_event, he, hc, if_true]
    cases hcb : e.callback with
    | none =>
      exact ⟨_, rfl, rfl, fun h => Nat.mod_eq_of_lt (by omega), fun h => by rw [h], by simp⟩
    | some cb =>
      exact ⟨_, rfl, rfl, fun h => Nat.mod_eq_of_lt (by omega), fun h => by rw [h], rfl⟩

/-- C17 at a concrete world: an element-level throw on the registry holding
`0x1010`, whose callback answers `5`; the counter goes from `1` to `2`. -/
theorem throw_event_counts_and_forwards_witness :
    one_elem_world.mixer.events = 1
      ∧ ∃ w1, snd_mixer_elem_throw_event one_elem_world 4112 SND_CTL_EVENT_VALUE
          = Outcome.ret 5 w1
        ∧ w1.mixer.events = 2
        ∧ w1.log = [Call.elem_callback 4112 SND_CTL_EVENT_VALUE [4112]] := by
  obtain ⟨w1, hrun, _, hev, _, hlog⟩ :=
    (throw_event_counts_and_forwards one_elem_world SND_CTL_EVENT_VALUE 4112).2
      { plain_elem 100 1 with } rfl (by decide)
  exact ⟨rfl, w1, hrun, hev (by decide), hlog⟩

/-- C17 as stated fails when the counter is at `UINT_MAX`: in the registry
holding `0x1010` with `events = 4294967295`, a registry-level throw (no registry
callback is set, result `0`) and an element-level throw (the callback answers
`5`) each leave the counter at `0`, not one higher. -/
theorem throw_event_counter_wraps_at_uint_max :
    saturated_world.mixer.events = 4294967295
      ∧ (snd_mixer_throw_event saturated_world SND_CTL_EVENT_VALUE 4112).returned = some 0
      ∧ (snd_mixer_throw_event saturated_world SND_CTL_EVENT_VALUE 4112).world.mixer.events = 0
      ∧ (snd_mixer_elem_throw_event saturated_world 4112 SND_CTL_EVENT_VALUE).returned = some 5
      ∧ (snd_mixer_elem_throw_event saturated_world 4112 SND_CTL_EVENT_VALUE).world.mixer.events
          = 0 := by
  decide

/-! ## Slave detachment (C14) -/

theorem detach_loop_no_match (name : String) (rest : List snd_mixer_slave_t) :
    ∀ (before : List snd_mixer_slave_t) (w : World),
      (∀ s ∈ rest, ∃ h, w.hctl_mem s.hctl = some h ∧ h.name ≠ name) →
      detach_loop name before rest w = Outcome.ret (-ENOENT) w := by
  induction rest with
  | nil => intro before w _; rfl
  | cons s rest ih =>
    intro before w h
    obtain ⟨hs, hm, hne⟩ := h s (List.mem_cons_self _ _)
    simp only [detach_loop, hm, Ne.symm hne, if_false]
    exact ih _ w (fun s' hs' => h s' (List.mem_cons_of_mem _ hs'))

theorem detach_loop_match (name : String) (pre : List snd_mixer_slave_t)
    (s : snd_mixer_slave_t) (post : List snd_mixer_slave_t) (h : snd_hctl_t) :
    ∀ (before : List snd_mixer_slave_t) (w : World),
      (∀ p ∈ pre, ∃ hp, w.hctl_mem p.hctl = some hp ∧ hp.name ≠ name) →
      w.hctl_mem s.hctl = some h → h.name = name →
      detach_loop name before (pre ++ s :: post) w
        = Outcome.ret 0 { snd_hctl_close w s.hctl with
                          mixer := { w.mixer with slaves := before ++ pre ++ post } } := by
  induction pre with
  | nil =>
    intro before w _ hm hn
    simp [detach_loop, hm, hn]
  | cons p rest ih =>
    intro before w hpre hm hn
    obtain ⟨hp, hpm, hne⟩ := hpre p (List.mem_cons_self _ _)
    rw [List.cons_append]
    simp only [detach_loop, hpm, Ne.symm hne, if_false]
    rw [ih (before ++ [p]) w (fun p' hp' => hpre p' (List.mem_cons_of_mem _ hp')) hm hn]
    simp

/-- C14.  If every slave's Source is live and none has the given name,
`snd_mixer_detach` returns `-ENOENT` and changes nothing (no Source is closed,
the slave list is as before).  If the slave list is `pre ++ s :: post`, no
Source of `pre` has the name and the Source of `s` has it, `snd_mixer_detach`
returns `0`, closes the Source of `s` and no other, and leaves the slave list
`pre ++ post`. -/
theorem detach_removes_first_match (w : World) (name : String) :
    ((∀ s ∈ w.mixer.slaves, ∃ h, w.hctl_mem s.hctl = some h ∧ h.name ≠ name) →
        snd_mixer_detach w name = Outcome.ret (-ENOENT) w)
      ∧ (∀ pre s post h, w.mixer.slaves = pre ++ s :: post →
          (∀ p ∈ pre, ∃ hp, w.hctl_mem p.hctl = some hp ∧ hp.name ≠ name) →
          w.hctl_mem s.hctl = some h → h.name = name →
          ∃ w1, snd_mixer_detach w name = Outcome.ret 0 w1
            ∧ w1.mixer.slaves = pre ++ post
            ∧ w1.log = w.log ++ [Call.hctl_close s.hctl]
            ∧ w1.hctl_mem = poke w.hctl_mem s.hctl none) := by
  refine ⟨?_, ?_⟩
  · intro h
    exact detach_loop_no_match name w.mixer.slaves [] w h
  · intro pre s post h hsl hpre hm hn
    refine ⟨{ snd_hctl_close w s.hctl with
               mixer := { w.mixer with slaves := [] ++ pre ++ post } }, ?_, ?_, rfl, rfl⟩
    · unfold snd_mixer_detach
      rw [hsl]
      exact detach_loop_match name pre s post h [] w hpre hm hn
    · simp

/-- C14 at concrete worlds: three slaves named `hw:0`, `hw:1`, `hw:2`; detaching
`hw:9` and detaching `hw:1`. -/
theorem detach_removes_first_match_witness :
    snd_mixer_detach (slave_world 0 0 0 0 0 0) "hw:9"
        = Outcome.ret (-ENOENT) (slave_world 0 0 0 0 0 0)
      ∧ ∃ w1, snd_mixer_detach (slave_world 0 0 0 0 0 0) "hw:1" = Outcome.ret 0 w1
          ∧ w1.mixer.slaves = [{ hctl := 50 }, { hctl := 70 }]
          ∧ w1.log = [Call.hctl_close 60] := by
  refine ⟨(detach_removes_first_match (slave_world 0 0 0 0 0 0) "hw:9").1 ?_, ?_⟩
  · intro s hs
    have hs2 : s = { hctl := 50 } ∨ s = { hctl := 60 } ∨ s = { hctl := 70 } := by
      simpa [slave_world, snd_mixer_open_mixer] using hs
    rcases hs2 with rfl | rfl | rfl
    · exact ⟨_, rfl, by decide⟩
    · exact ⟨_, rfl, by decide⟩
    · exact ⟨_, rfl, by decide⟩
  · obtain ⟨w1, hrun, hsl, hlog, _⟩ :=
      (detach_removes_first_match (slave_world 0 0 0 0 0 0) "hw:1").2
        [{ hctl := 50 }] { hctl := 60 } [{ hctl := 70 }] _ rfl
        (by
          intro p hp
          have hp2 : p = { hctl := 50 } := by simpa using hp
          subst hp2
          exact ⟨_, rfl, by decide⟩)
        rfl rfl
    exact ⟨w1, hrun, hsl, hlog⟩

/-! ## Class registration (C15) -/

theorem zipWith_append_short {α β γ : Type} (f : α → β → γ) (l1 l2 : List α) :
    ∀ r : List β, r.length ≤ l1.length → List.zipWith f (l1 ++ l2) r = List.zipWith f l1 r := by
  induction l1 with
  | nil =>
    intro r hr
    have : r = [] := List.length_eq_zero.mp (Nat.le_zero.mp hr)
    subst this
    simp
  | cons a l1 ih =>
    intro r hr
    cases r with
    | nil => simp
    | cons b r =>
      simp only [List.cons_append, List.zipWith_cons_cons]
      rw [ih r (by simpa using hr)]

theorem stops_at_first_negative_neg {n : Nat} {rets : List Int} {r : Int}
    (h : stops_at_first_negative n rets r) (hr : r < 0) :
    ∃ init, rets = init ++ [r] ∧ (∀ x ∈ init, 0 ≤ x) ∧ rets.length ≤ n := by
  rcases h with ⟨_, _, h0⟩ | ⟨init, h1, _, h3, h4⟩
  · omega
  · exact ⟨init, h1, h3, h4⟩

theorem stops_at_first_negative_nonneg {n : Nat} {rets : List Int} {r : Int}
    (h : stops_at_first_negative n rets r) (hr : ¬ r < 0) :
    rets.length = n ∧ (∀ x ∈ rets, 0 ≤ x) ∧ r = 0 := by
  rcases h with h | ⟨_, _, h2, _, _⟩
  · exact h
  · exact absurd h2 hr

theorem class_register_handles_spec (class_ : Nat) (k : snd_mixer_class_t)
    (hd : snd_ctl_event_type_t → Nat → Option Nat → List Nat → Int × List Nat)
    (hs : List Nat) :
    ∀ w : World, w.class_mem class_ = some k → k.event = some hd →
      ∃ w1 rets r, class_register_handles class_ hs w = Outcome.ret r w1
        ∧ w1.mixer = w.mixer ∧ w1.class_mem = w.class_mem ∧ w1.hctl_mem = w.hctl_mem
        ∧ w1.log = w.log ++ List.zipWith
            (fun h x => Call.class_event class_ SND_CTL_EVENT_ADD h none x) hs rets
        ∧ stops_at_first_negative hs.length rets r := by
  induction hs with
  | nil =>
    intro w _ _
    exact ⟨w, [], 0, rfl, rfl, rfl, rfl, by simp, Or.inl ⟨rfl, by simp, rfl⟩⟩
  | cons h rest ih =>
    intro w hk hh
    have hcall := call_class_event_ret w class_ SND_CTL_EVENT_ADD h none k hd hk hh
    by_cases hneg : (hd SND_CTL_EVENT_ADD h none ((w.bags h).getD [])).1 < 0
    · refine ⟨{ w with bags := poke w.bags h
                           ((w.bags h).map fun _ =>
                             (hd SND_CTL_EVENT_ADD h none ((w.bags h).getD [])).2),
                         log := w.log ++ [Call.class_event class_ SND_CTL_EVENT_ADD h none
                           (hd SND_CTL_EVENT_ADD h none ((w.bags h).getD [])).1] },
        [(hd SND_CTL_EVENT_ADD h none ((w.bags h).getD [])).1],
        (hd SND_CTL_EVENT_ADD h none ((w.bags h).getD [])).1, ?_, rfl, rfl, rfl,
        by simp, Or.inr ⟨[], rfl, hneg, by simp, by simp⟩⟩
      simp only [class_register_handles, hcall, hneg, if_true]
    · obtain ⟨w1, rets, r, hrun, hm, hc, hh2, hlog, hstop⟩ :=
        ih
          { w with bags := poke w.bags h
                     ((w.bags h).map fun _ =>
                       (hd SND_CTL_EVENT_ADD h none ((w.bags h).getD [])).2),
                   log := w.log ++ [Call.class_event class_ SND_CTL_EVENT_ADD h none
                     (hd SND_CTL_EVENT_ADD h none ((w.bags h).getD [])).1] } hk hh
      refine ⟨w1, (hd SND_CTL_EVENT_ADD h none ((w.bags h).getD [])).1 :: rets, r, ?_, hm, hc,
        hh2, by rw [hlog]; simp, ?_⟩
      · simp only [class_register_handles, hcall, hneg, if_false]
        exact hrun
      · rcases hstop with ⟨h1, h2, h3⟩ | ⟨init, h1, h2, h3, h4⟩
        · refine Or.inl ⟨by simp [h1], ?_, h3⟩
          intro x hx
          rcases List.mem_cons.mp hx with rfl | hx
          · exact not_lt.mp hneg
          · exact h2 x hx
        · refine Or.inr ⟨(hd SND_CTL_EVENT_ADD h none ((w.bags h).getD [])).1 :: init,
            by simp [h1], h2, ?_, by simpa using h4⟩
          intro x hx
          rcases List.mem_cons.mp hx with rfl | hx
          · exact not_lt.mp hneg
          · exact h3 x hx

theorem class_register_slaves_spec (class_ : Nat) (k : snd_mixer_class_t)
    (hd : snd_ctl_event_type_t → Nat → Option Nat → List Nat → Int × List Nat)
    (handles : Nat → List Nat) (slaves : List snd_mixer_slave_t) :
    ∀ w : World, w.class_mem class_ = some k → k.event = some hd →
      (∀ s ∈ slaves, ∃ h, w.hctl_mem s.hctl = some h) →
      ∃ w1 rets r, class_register_slaves class_ handles slaves w = Outcome.ret r w1
        ∧ w1.mixer = w.mixer ∧ w1.class_mem = w.class_mem ∧ w1.hctl_mem = w.hctl_mem
        ∧ w1.log = w.log ++ List.zipWith
            (fun h x => Call.class_event class_ SND_CTL_EVENT_ADD h none x)
            (slave_handles handles slaves) rets
        ∧ stops_at_first_negative (slave_handles handles slaves).length rets r := by
  induction slaves with
  | nil =>
    intro w _ _ _
    exact ⟨w, [], 0, rfl, rfl, rfl, rfl, by simp [slave_handles],
      Or.inl ⟨rfl, by simp, rfl⟩⟩
  | cons s rest ih =>
    intro w hk hh hsl
    obtain ⟨hc, hcm⟩ := hsl s (List.mem_cons_self _ _)
    obtain ⟨w1, rets1, r1, hrun1, hm1, hc1, hh1, hlog1, hstop1⟩ :=
      class_register_handles_spec class_ k hd (handles s.hctl) w hk hh
    by_cases hneg : r1 < 0
    · obtain ⟨init, hi1, hi2, hi3⟩ := stops_at_first_negative_neg hstop1 hneg
      refine ⟨w1, rets1, r1, ?_, hm1, hc1, hh1, ?_, Or.inr ⟨init, hi1, hneg, hi2, ?_⟩⟩
      · simp only [class_register_slaves, hcm, hrun1, hneg, if_true]
      · rw [hlog1]
        simp only [slave_handles]
        rw [zipWith_append_short _ _ _ _ hi3]
      · simp only [slave_handles, List.length_append]
        omega
    · obtain ⟨hl1, hp1, hz1⟩ := stops_at_first_negative_nonneg hstop1 hneg
      obtain ⟨w2, rets2, r2, hrun2, hm2, hc2, hh2, hlog2, hstop2⟩ :=
        ih w1 (by rw [hc1]; exact hk) hh
          (fun s' hs' => by rw [hh1]; exact hsl s' (List.mem_cons_of_mem _ hs'))
      refine ⟨w2, rets1 ++ rets2, r2, ?_, hm2.trans hm1, hc2.trans hc1, hh2.trans hh1, ?_, ?_⟩
      · simp only [class_register_slaves, hcm, hrun1, hneg, if_false]
        exact hrun2
      · rw [hlog2, hlog1]
        simp only [slave_handles]
        rw [List.zipWith_append _ _ _ _ _ hl1.symm]
        simp
      · rcases hstop2 with ⟨h1, h2, h3⟩ | ⟨init, h1, h2, h3, h4⟩
        · refine Or.inl ⟨by simp [slave_handles, hl1, h1], ?_, h3⟩
          intro x hx
          rcases List.mem_append.mp hx with hx | hx
          · exact hp1 x hx
          · exact h2 x hx
        · refine Or.inr ⟨rets1 ++ init, by simp [h1], h2, ?_, ?_⟩
          · intro x hx
            rcases List.mem_append.mp hx with hx | hx
            · exact hp1 x hx
            · exact h3 x hx
          · simp only [slave_handles, List.length_append]
            omega

/-- C15.  For a live class record, `snd_mixer_class_register` puts the class at
the end of the class list.  Without an event handler it returns `0` and calls
nothing.  With one, and every slave's Source live, it calls that handler, and
no other, with `(ADD, handle, null)` for the handles of the slaves, slaves in
list order and handles in Source order: either once for every handle, all
results non-negative, and it returns `0`, or up to and including the first
call with a negative result, which it returns; in both cases the class stays
registered. -/
theorem class_register_backfills (w : World) (class_ : Nat) (handles : Nat → List Nat)
    (k : snd_mixer_class_t) (hk : w.class_mem class_ = some k) :
    (k.event = none →
        snd_mixer_class_register w class_ handles
          = Outcome.ret 0
              { w with mixer := { w.mixer with classes := w.mixer.classes ++ [class_] } })
      ∧ (∀ hd, k.event = some hd → (∀ s ∈ w.mixer.slaves, ∃ h, w.hctl_mem s.hctl = some h) →
          ∃ w1 rets r, snd_mixer_class_register w class_ handles = Outcome.ret r w1
            ∧ w1.mixer.classes = w.mixer.classes ++ [class_]
            ∧ w1.log = w.log ++ List.zipWith
                (fun h x => Call.class_event class_ SND_CTL_EVENT_ADD h none x)
                (slave_handles handles w.mixer.slaves) rets
            ∧ stops_at_first_negative (slave_handles handles w.mixer.slaves).length rets r) := by
  refine ⟨?_, ?_⟩
  · intro hnone
    simp [snd_mixer_class_register, hk, hnone, list_add_tail_head]
  · intro hd hh hsl
    obtain ⟨w1, rets, r, hrun, hm, _, _, hlog, hstop⟩ :=
      class_register_slaves_spec class_ k hd handles w.mixer.slaves
        { w with mixer := { w.mixer with classes := list_add_tail_head class_ w.mixer.classes } }
        hk hh hsl
    refine ⟨w1, rets, r, ?_, by rw [hm]; rfl, hlog, hstop⟩
    simp only [snd_mixer_class_register, hk, hh]
    exact hrun

/-- C15 at a concrete world: registering the class at `300`, whose handler fails
on the handle `3`, the first handle of the second slave. -/
theorem class_register_backfills_witness :
    (∃ w1 rets r, snd_mixer_class_register register_world 300 example_handles
          = Outcome.ret r w1
        ∧ w1.mixer.classes = register_world.mixer.classes ++ [300]
        ∧ w1.log = register_world.log ++ List.zipWith
            (fun h x => Call.class_event 300 SND_CTL_EVENT_ADD h none x)
            (slave_handles example_handles register_world.mixer.slaves) rets
        ∧ stops_at_first_negative
            (slave_handles example_handles register_world.mixer.slaves).length rets r)
      ∧ (snd_mixer_class_register register_world 300 example_handles).returned = some (-4)
      ∧ (snd_mixer_class_register register_world 300 example_handles).world.mixer.classes
          = [100, 300]
      ∧ (snd_mixer_class_register register_world 300 example_handles).world.log
          = [Call.class_event 300 SND_CTL_EVENT_ADD 1 none 0,
             Call.class_event 300 SND_CTL_EVENT_ADD 2 none 0,
             Call.class_event 300 SND_CTL_EVENT_ADD 3 none (-4)] :=
  ⟨(class_register_backfills register_world 300 example_handles picky_class rfl).2 _ rfl
      (by
        intro s hs
        have hs2 : s = { hctl := 50 } ∨ s = { hctl := 60 } ∨ s = { hctl := 70 } := by
          simpa [register_world, slave_world, snd_mixer_open_mixer] using hs
        rcases hs2 with rfl | rfl | rfl
        · exact ⟨_, rfl⟩
        · exact ⟨_, rfl⟩
        · exact ⟨_, rfl⟩),
    by decide, by decide, by decide⟩

/-! ## The default comparator (C12, C13) -/

theorem snd_mixer_compare_default_traced_fst (w : World) (c1 c2 : Nat) :
    (snd_mixer_compare_default_traced w c1 c2).1 = snd_mixer_compare_default w c1 c2 := by
  unfold snd_mixer_compare_default_traced snd_mixer_compare_default
  repeat' split
  all_goals first
    | rfl
    | (dsimp only; repeat' split) <;> rfl

theorem wrap_int_of_int_range (i : Int) (h1 : -2147483648 ≤ i) (h2 : i < 2147483648) :
    wrap_int i = i := by
  unfold wrap_int to_int to_unsigned
  have hnn : 0 ≤ i % 4294967296 := Int.emod_nonneg _ (by decide)
  have hlt : i % 4294967296 < 4294967296 := Int.emod_lt_of_pos _ (by decide)
  have hcast : (((i % 4294967296).toNat : Nat) : Int) = i % 4294967296 := Int.toNat_of_nonneg hnn
  have hmod : (i % 4294967296).toNat % 4294967296 = (i % 4294967296).toNat := by
    apply Nat.mod_eq_of_lt
    omega
  rw [hmod]
  split
  · omega
  · omega

theorem wrap_int_eq_zero (i : Int) (h1 : -4294967296 < i) (h2 : i < 4294967296)
    (h : wrap_int i = 0) : i = 0 := by
  unfold wrap_int to_int to_unsigned at h
  have hnn : 0 ≤ i % 4294967296 := Int.emod_nonneg _ (by decide)
  have hlt : i % 4294967296 < 4294967296 := Int.emod_lt_of_pos _ (by decide)
  have hcast : (((i % 4294967296).toNat : Nat) : Int) = i % 4294967296 := Int.toNat_of_nonneg hnn
  have hmod : (i % 4294967296).toNat % 4294967296 = (i % 4294967296).toNat := by
    apply Nat.mod_eq_of_lt
    omega
  rw [hmod] at h
  split at h
  · omega
  · omega

/-- C12 (amended).  For live elements `c1`, `c2` with `c1.compare_weight <
c2.compare_weight` and `c2.compare_weight - c1.compare_weight ≤ INT_MAX`,
`snd_mixer_compare_default(c1, c2)` returns the negative difference of the
weights and `snd_mixer_compare_default(c2, c1)` the positive one, and neither
call invokes a class comparator. -/
theorem compare_default_by_weight (w : World) (c1 c2 : Nat) (e1 e2 : snd_mixer_elem_t)
    (he1 : w.elem_mem c1 = some e1) (he2 : w.elem_mem c2 = some e2)
    (hlt : e1.compare_weight < e2.compare_weight)
    (hfit : e2.compare_weight - e1.compare_weight ≤ 2147483647) :
    snd_mixer_compare_default_traced w c1 c2
        = (Except.ok (e1.compare_weight - e2.compare_weight), [])
      ∧ e1.compare_weight - e2.compare_weight < 0
      ∧ snd_mixer_compare_default_traced w c2 c1
        = (Except.ok (e2.compare_weight - e1.compare_weight), [])
      ∧ 0 < e2.compare_weight - e1.compare_weight
      ∧ snd_mixer_compare_default w c1 c2 = Except.ok (e1.compare_weight - e2.compare_weight)
      ∧ snd_mixer_compare_default w c2 c1
        = Except.ok (e2.compare_weight - e1.compare_weight) := by
  have h12 : wrap_int (e1.compare_weight - e2.compare_weight)
      = e1.compare_weight - e2.compare_weight :=
    wrap_int_of_int_range _ (by omega) (by omega)
  have h21 : wrap_int (e2.compare_weight - e1.compare_weight)
      = e2.compare_weight - e1.compare_weight :=
    wrap_int_of_int_range _ (by omega) (by omega)
  have hne12 : e1.compare_weight - e2.compare_weight ≠ 0 := by omega
  have hne21 : e2.compare_weight - e1.compare_weight ≠ 0 := by omega
  have t12 : snd_mixer_compare_default_traced w c1 c2
      = (Except.ok (e1.compare_weight - e2.compare_weight), []) := by
    simp [snd_mixer_compare_default_traced, he1, he2, h12, hne12]
  have t21 : snd_mixer_compare_default_traced w c2 c1
      = (Except.ok (e2.compare_weight - e1.compare_weight), []) := by
    simp [snd_mixer_compare_default_traced, he1, he2, h21, hne21]
  refine ⟨t12, by omega, t21, by omega, ?_, ?_⟩
  · rw [← snd_mixer_compare_default_traced_fst, t12]
  · rw [← snd_mixer_compare_default_traced_fst, t21]

/-- C12 (amended) at a concrete world: the elements of weight 1 and 2 of the
two-element registry. -/
theorem compare_default_by_weight_witness :
    snd_mixer_compare_default_traced two_elem_world 4112 8224 = (Except.ok (-1), [])
      ∧ snd_mixer_compare_default_traced two_elem_world 8224 4112 = (Except.ok 1, []) := by
  obtain ⟨h1, _, h2, _, _, _⟩ :=
    compare_default_by_weight two_elem_world 4112 8224 (plain_elem 100 1) (plain_elem 100 2)
      rfl rfl (by decide) (by decide)
  exact ⟨h1, h2⟩

/-- C12 as stated fails: with the weights `INT_MIN` and `1`, both machine ints
and the first one lower, `snd_mixer_compare_default(c1, c2)` is `INT_MAX`,
positive, and `snd_mixer_compare_default(c2, c1)` is negative: the difference
of the weights does not fit an `int`. -/
theorem compare_default_weight_difference_overflows :
    ((extreme_world.elem_mem 4112).map fun e => e.compare_weight) = some (-2147483648)
      ∧ ((extreme_world.elem_mem 8224).map fun e => e.compare_weight) = some 1
      ∧ snd_mixer_compare_default_traced extreme_world 4112 8224
          = (Except.ok 2147483647, [])
      ∧ snd_mixer_compare_default_traced extreme_world 8224 4112
          = (Except.ok (-2147483647), []) := by
  refine ⟨rfl, rfl, rfl, rfl⟩

/-- C13.  For live elements whose weights are machine ints:
`snd_mixer_compare_default` makes at most one class-comparator call; if it
makes one, the weights are equal, both elements have the same owning class, the
comparator called is that class's and the function returns exactly its result;
with equal weights and the same class, live and with a comparator, the call is
made.  With equal weights and different owning classes (each class pointer null
or live) the function fails an assertion and calls no class comparator. -/
theorem compare_default_class_comparator (w : World) (c1 c2 : Nat) (e1 e2 : snd_mixer_elem_t)
    (he1 : w.elem_mem c1 = some e1) (he2 : w.elem_mem c2 = some e2)
    (hr1 : -2147483648 ≤ e1.compare_weight ∧ e1.compare_weight < 2147483648)
    (hr2 : -2147483648 ≤ e2.compare_weight ∧ e2.compare_weight < 2147483648) :
    (∀ call ∈ (snd_mixer_compare_default_traced w c1 c2).2,
        e1.compare_weight = e2.compare_weight ∧ e1.class_ = e2.class_
          ∧ call = (e1.class_, c1, c2)
          ∧ ∃ k f, w.class_mem e1.class_ = some k ∧ k.compare = some f
              ∧ snd_mixer_compare_default_traced w c1 c2 = (Except.ok (f c1 c2), [call]))
      ∧ (∀ k f, e1.compare_weight = e2.compare_weight → e1.class_ = e2.class_ →
          e1.class_ ≠ 0 → w.class_mem e1.class_ = some k → k.compare = some f →
          snd_mixer_compare_default_traced w c1 c2
            = (Except.ok (f c1 c2), [(e1.class_, c1, c2)]))
      ∧ (e1.compare_weight = e2.compare_weight → e1.class_ ≠ e2.class_ →
          (e1.class_ = 0 ∨ ∃ k, w.class_mem e1.class_ = some k) →
          (e2.class_ = 0 ∨ ∃ k, w.class_mem e2.class_ = some k) →
          snd_mixer_compare_default_traced w c1 c2 = (Except.error Fault.assertion, [])) := by
  refine ⟨?_, ?_, ?_⟩
  · intro call hcall
    by_cases hd : wrap_int (e1.compare_weight - e2.compare_weight) = 0
    · have hw : e1.compare_weight = e2.compare_weight := by
        have := wrap_int_eq_zero _ (by omega) (by omega) hd
        omega
      simp only [snd_mixer_compare_default_traced, he1, he2, hd, ne_eq, not_true_eq_false,
        if_false] at hcall ⊢
      by_cases h10 : e1.class_ = 0
      · simp [h10] at hcall
      · simp only [h10, if_false] at hcall ⊢
        cases hk1 : w.class_mem e1.class_ with
        | none => simp [hk1] at hcall
        | some k1 =>
          simp only [hk1] at hcall ⊢
          cases hf1 : k1.compare with
          | none => simp [hf1] at hcall
          | some f =>
            simp only [hf1] at hcall ⊢
            by_cases h20 : e2.class_ = 0
            · simp [h20] at hcall
            · simp only [h20, if_false] at hcall ⊢
              cases hk2 : w.class_mem e2.class_ with
              | none => simp [hk2] at hcall
              | some k2 =>
                simp only [hk2] at hcall ⊢
                cases hf2 : k2.compare with
                | none => simp [hf2] at hcall
                | some g =>
                  simp only [hf2] at hcall ⊢
                  by_cases hsame : e1.class_ = e2.class_
                  · rw [if_pos hsame] at hcall ⊢
                    have hcall2 : call = (e1.class_, c1, c2) := by simpa using hcall
                    exact ⟨hw, hsame, hcall2, k1, f, rfl, hf1, by rw [hcall2]⟩
                  · simp [hsame] at hcall
    · simp [snd_mixer_compare_default_traced, he1, he2, hd] at hcall
  · intro k f hw hsame h10 hk hf
    have hd : wrap_int (e1.compare_weight - e2.compare_weight) = 0 := by
      rw [hw]; simp; rfl
    have hk2 : w.class_mem e2.class_ = some k := by rw [← hsame]; exact hk
    have h20 : e2.class_ ≠ 0 := by rw [← hsame]; exact h10
    simp [snd_mixer_compare_default_traced, he1, he2, hd, h10, hk, hf, h20, hk2, hsame]
  · intro hw hdiff hc1 hc2
    have hd : wrap_int (e1.compare_weight - e2.compare_weight) = 0 := by
      rw [hw]; simp; rfl
    simp only [snd_mixer_compare_default_traced, he1, he2, hd, ne_eq, not_true_eq_false,
      if_false]
    rcases hc1 with h10 | ⟨k1, hk1⟩
    · simp [h10]
    · by_cases h10 : e1.class_ = 0
      · simp [h10]
      · simp only [h10, if_false, hk1]
        cases hf1 : k1.compare with
        | none => rfl
        | some f =>
          simp only
          rcases hc2 with h20 | ⟨k2, hk2⟩
          · simp [h20]
          · by_cases h20 : e2.class_ = 0
            · simp [h20]
            · simp only [h20, if_false, hk2]
              cases hf2 : k2.compare with
              | none => rfl
              | some g => simp [hdiff]

/-- C13 at a concrete world with three elements of weight 3: a pair of the same
class, for which the class comparator is called, and a pair of different
classes, for which the assertion fails. -/
theorem compare_default_class_comparator_witness :
    snd_mixer_compare_default_traced tie_world 4112 4128 = (Except.ok 0, [(100, 4112, 4128)])
      ∧ snd_mixer_compare_default_traced tie_world 4112 8224
          = (Except.error Fault.assertion, []) :=
  ⟨(compare_default_class_comparator tie_world 4112 4128 (plain_elem 100 3) (plain_elem 100 3)
      rfl rfl (by decide) (by decide)).2.1 plain_class (fun _ _ => 0) rfl rfl (by decide) rfl rfl,
   (compare_default_class_comparator tie_world 4112 8224 (plain_elem 100 3) (plain_elem 200 3)
      rfl rfl (by decide) (by decide)).2.2 rfl (by decide) (Or.inr ⟨_, rfl⟩) (Or.inr ⟨_, rfl⟩)⟩

/-! ## The binary search (C18 – C20) -/

/-- For a probe that is not the null pointer the assertion at the head of
`_snd_mixer_find_elem` holds and the function is its loop. -/
theorem find_elem_of_ne_zero (w : World) (elem : Nat) (helem : elem ≠ 0) :
    _snd_mixer_find_elem w elem = find_loop w elem (w.mixer.count + 1) 0 w.mixer.count 0 (-1) := by
  unfold _snd_mixer_find_elem
  rw [if_neg helem]

/-- For the null pointer as probe the assertion at the head of
`_snd_mixer_find_elem` fails. -/
theorem find_elem_null (w : World) : _snd_mixer_find_elem w 0 = Except.error Fault.assertion := by
  unfold _snd_mixer_find_elem
  rw [if_pos rfl]

theorem find_loop_traced_fst (w : World) (elem : Nat) (fuel : Nat) :
    ∀ (l u : Nat) (c idx : Int),
      (find_loop_traced w elem fuel l u c idx).1 = find_loop w elem fuel l u c idx := by
  induction fuel with
  | zero => intro l u c idx; rfl
  | succ fuel ih =>
    intro l u c idx
    simp only [find_loop_traced, find_loop]
    split
    · split
      · rfl
      · split
        · rfl
        · split
          · exact ih _ _ _ _
          · split
            · exact ih _ _ _ _
            · rfl
    · rfl

theorem to_unsigned_natCast (n : Nat) (h : n < 4294967296) : to_unsigned (n : Int) = n := by
  unfold to_unsigned
  have h1 : ((n : Int) % 4294967296) = (n : Int) := Int.emod_eq_of_lt (by omega) (by omega)
  rw [h1]
  exact Int.toNat_natCast n

/-- The midpoint computed by the loop for `l < u < 2^31`: no wrap-around occurs,
the index lies in `[l, u)`, and both ways of narrowing the interval give back
the natural numbers `m` and `m + 1`. -/
theorem find_midpoint (l u : Nat) (hlu : l < u) (hu : u < 2147483648) :
    to_int ((l + u) % 4294967296 / 2) = (((l + u) / 2 : Nat) : Int)
      ∧ l ≤ (l + u) / 2 ∧ (l + u) / 2 < u
      ∧ to_unsigned (((l + u) / 2 : Nat) : Int) = (l + u) / 2
      ∧ to_unsigned (wrap_int ((((l + u) / 2 : Nat) : Int) + 1)) = (l + u) / 2 + 1 := by
  have hmod : (l + u) % 4294967296 = l + u := Nat.mod_eq_of_lt (by omega)
  have hm : (l + u) / 2 < u := by omega
  refine ⟨?_, by omega, hm, to_unsigned_natCast _ (by omega), ?_⟩
  · rw [hmod]
    exact to_int_small _ (by omega)
  · rw [wrap_int_of_int_range _ (by omega) (by omega)]
    have : ((((l + u) / 2 : Nat) : Int) + 1) = (((l + u) / 2 + 1 : Nat) : Int) := by
      push_cast; rfl
    rw [this]
    exact to_unsigned_natCast _ (by omega)

theorem call_compare_not_out_of_fuel (w : World) (c1 c2 : Nat) :
    call_compare w c1 c2 ≠ Except.error Fault.out_of_fuel := by
  unfold call_compare
  split
  · unfold snd_mixer_compare_default
    repeat' split
    all_goals first
      | (intro h; cases h)
      | (dsimp only; repeat' split) <;> (intro h; cases h)
  · intro h; cases h

theorem find_loop_traced_bounded (w : World) (elem : Nat) (hcount : w.mixer.count < 2147483648)
    (fuel : Nat) :
    ∀ (l u : Nat) (c idx : Int), l ≤ u → u ≤ w.mixer.count → u - l < fuel →
      (find_loop_traced w elem fuel l u c idx).1 ≠ Except.error Fault.out_of_fuel
        ∧ (find_loop_traced w elem fuel l u c idx).2.length ≤ u - l
        ∧ ∀ i ∈ (find_loop_traced w elem fuel l u c idx).2, (l : Int) ≤ i ∧ i < (u : Int) := by
  induction fuel with
  | zero => intro l u c idx _ _ hf; omega
  | succ fuel ih =>
    intro l u c idx hlu huc hf
    by_cases hlt : l < u
    · obtain ⟨hmid, hlm, hmu, hto, hto1⟩ := find_midpoint l u hlt (by omega)
      have hprobe : (l : Int) ≤ (((l + u) / 2 : Nat) : Int)
          ∧ (((l + u) / 2 : Nat) : Int) < (u : Int) := by
        constructor <;> omega
      simp only [find_loop_traced, hlt, if_true, hmid]
      cases hr : read_ptr w.mixer.pelems (((l + u) / 2 : Nat) : Int) with
      | none =>
        simp only
        refine ⟨by simp, by simp; omega, ?_⟩
        intro i hi
        simp only [List.mem_singleton] at hi
        subst hi
        exact hprobe
      | some p =>
        simp only
        cases hc : call_compare w elem p with
        | error f =>
          simp only
          refine ⟨?_, by simp; omega, ?_⟩
          · intro hcontra
            have hf2 : f = Fault.out_of_fuel := by simpa using hcontra
            rw [hf2] at hc
            exact call_compare_not_out_of_fuel w elem p hc
          · intro i hi
            simp only [List.mem_singleton] at hi
            subst hi
            exact hprobe
        | ok c1 =>
          simp only
          by_cases hneg : c1 < 0
          · simp only [hneg, if_true, hto]
            obtain ⟨h1, h2, h3⟩ := ih l ((l + u) / 2) c1 (((l + u) / 2 : Nat) : Int) hlm
              (by omega) (by omega)
            refine ⟨h1, by simp only [List.length_cons]; omega, ?_⟩
            intro i hi
            rcases List.mem_cons.mp hi with rfl | hi
            · exact hprobe
            · have := h3 i hi
              omega
          · by_cases hpos : c1 > 0
            · simp only [hneg, if_false, hpos, if_true, hto1]
              obtain ⟨h1, h2, h3⟩ := ih ((l + u) / 2 + 1) u c1 (((l + u) / 2 : Nat) : Int)
                (by omega) huc (by omega)
              refine ⟨h1, by simp only [List.length_cons]; omega, ?_⟩
              intro i hi
              rcases List.mem_cons.mp hi with rfl | hi
              · exact hprobe
              · have := h3 i hi
                omega
            · simp only [hneg, if_false, hpos]
              refine ⟨by simp, by simp; omega, ?_⟩
              intro i hi
              simp only [List.mem_singleton] at hi
              subst hi
              exact hprobe
    · simp only [find_loop_traced, hlt, if_false]
      exact ⟨by simp, by simp, by simp⟩

/-- The search loop on an array whose comparison results against the probe,
`c 0, c 1, …`, have non-increasing sign: it returns the index of the last probe
with its comparison result, and that index separates the positive results from
the negative ones. -/
theorem find_loop_sorted (w : World) (elem : Nat) (a : Nat → Nat) (c : Nat → Int)
    (hcount : w.mixer.count < 2147483648)
    (hread : ∀ i, i < w.mixer.count → read_ptr w.mixer.pelems (i : Int) = some (a i))
    (hcmp : ∀ i, i < w.mixer.count → call_compare w elem (a i) = Except.ok (c i))
    (hneg : ∀ i j, i ≤ j → j < w.mixer.count → c i < 0 → c j < 0)
    (hpos : ∀ i j, i ≤ j → j < w.mixer.count → 0 < c j → 0 < c i)
    (fuel : Nat) :
    ∀ (l u : Nat) (c0 idx0 : Int), l ≤ u → u ≤ w.mixer.count → u - l < fuel →
      (∀ k, k < l → 0 < c k) → (∀ k, u ≤ k → k < w.mixer.count → c k < 0) →
      (l < u ∨ (idx0 = (u : Int) ∧ u < w.mixer.count ∧ c0 = c u ∧ c0 < 0)
        ∨ (∃ m : Nat, idx0 = (m : Int) ∧ l = m + 1 ∧ c0 = c m ∧ 0 < c0)) →
      ∃ m : Nat, m < w.mixer.count
        ∧ find_loop w elem fuel l u c0 idx0 = Except.ok ((m : Int), c m)
        ∧ (c m < 0 → ∀ k, k < m → 0 < c k)
        ∧ (0 < c m → ∀ k, m < k → k < w.mixer.count → c k < 0)
        ∧ (c m ≠ 0 → ∀ k, k < w.mixer.count → c k ≠ 0) := by
  induction fuel with
  | zero => intro l u c0 idx0 _ _ hf; omega
  | succ fuel ih =>
    intro l u c0 idx0 hlu huc hf hlow hhigh hstate
    by_cases hlt : l < u
    · obtain ⟨hmid, hlm, hmu, hto, hto1⟩ := find_midpoint l u hlt (by omega)
      have hmc : (l + u) / 2 < w.mixer.count := by omega
      simp only [find_loop, hlt, if_true, hmid, hread _ hmc, hcmp _ hmc]
      by_cases hn : c ((l + u) / 2) < 0
      · simp only [hn, if_true, hto]
        exact ih l ((l + u) / 2) _ _ hlm (by omega) (by omega) hlow
          (fun k hk hkc => hneg _ k hk hkc hn)
          (Or.inr (Or.inl ⟨rfl, hmc, rfl, hn⟩))
      · by_cases hp : c ((l + u) / 2) > 0
        · simp only [hn, if_false, hp, if_true, hto1]
          exact ih ((l + u) / 2 + 1) u _ _ (by omega) huc (by omega)
            (fun k hk => hpos k _ (by omega) hmc hp) hhigh
            (Or.inr (Or.inr ⟨(l + u) / 2, rfl, rfl, rfl, hp⟩))
        · simp only [hn, if_false, hp]
          have hz : c ((l + u) / 2) = 0 := by omega
          exact ⟨(l + u) / 2, hmc, rfl, fun h => absurd h hn, fun h => absurd h hp,
            fun h => absurd hz h⟩
    · have hlu2 : l = u := by omega
      simp only [find_loop, hlt, if_false]
      rcases hstate with h | ⟨hidx, huc2, hc0, hc0neg⟩ | ⟨m, hidx, hl, hc0, hc0pos⟩
      · exact absurd h hlt
      · subst hidx
        refine ⟨u, huc2, by rw [hc0], ?_, ?_, ?_⟩
        · intro _ k hk
          exact hlow k (by omega)
        · intro h
          omega
        · intro _ k hk
          by_cases hku : k < l
          · have := hlow k hku
            omega
          · have := hhigh k (by omega) hk
            omega
      · subst hidx
        refine ⟨m, by omega, by rw [hc0], ?_, ?_, ?_⟩
        · intro h
          omega
        · intro _ k hk hkc
          exact hhigh k (by omega) hkc
        · intro _ k hk
          by_cases hku : k < l
          · have := hlow k hku
            omega
          · have := hhigh k (by omega) hk
            omega

/-- On an array sorted under a consistent order, the comparison results of a
probe against the cells have non-increasing sign. -/
theorem sorted_signs (f : Nat → Nat → Int) (hord : consistent_order f) (a : Nat → Nat)
    (n elem : Nat) (hsorted : ∀ i j, i < j → j < n → f (a i) (a j) ≤ 0) :
    (∀ i j, i ≤ j → j < n → f elem (a i) < 0 → f elem (a j) < 0)
      ∧ (∀ i j, i ≤ j → j < n → 0 < f elem (a j) → 0 < f elem (a i)) := by
  obtain ⟨hanti, htrans⟩ := hord
  constructor
  · intro i j hij hj hi
    rcases Nat.eq_or_lt_of_le hij with heq | hlt
    · rw [← heq]; exact hi
    · by_contra hcon
      have h1 : f (a j) elem ≤ 0 := by
        by_contra h
        exact hcon ((hanti elem (a j)).mpr (by omega))
      have h2 := htrans (a i) (a j) elem (hsorted i j hlt hj) h1
      have h3 := (hanti elem (a i)).mp hi
      omega
  · intro i j hij hj hjpos
    rcases Nat.eq_or_lt_of_le hij with heq | hlt
    · rw [heq]; exact hjpos
    · by_contra hcon
      have h2 := htrans elem (a i) (a j) (by omega) (hsorted i j hlt hj)
      omega

/-- C18 (amended).  For a registry with `0 < count < 2^31` whose array cells
`a 0, …, a (count - 1)` are sorted under the active comparator `f`, a consistent
order, and for every probe that is not the null pointer: `_snd_mixer_find_elem`
returns an index `m` in `[0, count)` together with `dir = f probe (a m)`, the
result of comparing the probe with the entry at `m`; and `dir = 0` if and only
if some array entry compares equal to the probe. -/
theorem find_elem_exact_match (w : World) (elem : Nat) (a : Nat → Nat) (f : Nat → Nat → Int)
    (helem : elem ≠ 0)
    (hpos : 0 < w.mixer.count) (hcount : w.mixer.count < 2147483648)
    (hread : ∀ i, i < w.mixer.count → read_ptr w.mixer.pelems (i : Int) = some (a i))
    (hcmp : ∀ i, i < w.mixer.count → call_compare w elem (a i) = Except.ok (f elem (a i)))
    (hord : consistent_order f)
    (hsorted : ∀ i j, i < j → j < w.mixer.count → f (a i) (a j) ≤ 0) :
    ∃ m : Nat, m < w.mixer.count
      ∧ _snd_mixer_find_elem w elem = Except.ok ((m : Int), f elem (a m))
      ∧ (f elem (a m) = 0 ↔ ∃ k, k < w.mixer.count ∧ f elem (a k) = 0) := by
  obtain ⟨hn, hp⟩ := sorted_signs f hord a w.mixer.count elem hsorted
  obtain ⟨m, hm, hrun, _, _, hzero⟩ :=
    find_loop_sorted w elem a (fun i => f elem (a i)) hcount hread hcmp hn hp
      (w.mixer.count + 1) 0 w.mixer.count 0 (-1) (by omega) (le_refl _) (by omega)
      (fun k hk => by omega) (fun k hk hkc => by omega) (Or.inl hpos)
  refine ⟨m, hm, (find_elem_of_ne_zero w elem helem).trans hrun, ?_, ?_⟩
  · intro h
    exact ⟨m, hm, h⟩
  · rintro ⟨k, hk, hk0⟩
    by_contra hne
    exact hzero hne k hk hk0

/-- C19 (amended).  For a non-empty array with `count < 2^31`, strictly sorted
under the active comparator `f`, a consistent order, and a probe, not the null
pointer, that compares unequal to all entries: `_snd_mixer_find_elem` returns an index `m` in
`[0, count)` and the non-zero `dir = f probe (a m)`.  If `dir < 0`, every entry
before `m` is less than the probe and the entry at `m` is greater; if `dir >
0`, the entry at `m` is less than the probe and every entry after `m` is
greater. -/
theorem find_elem_insertion_point (w : World) (elem : Nat) (a : Nat → Nat)
    (f : Nat → Nat → Int) (helem : elem ≠ 0)
    (hpos : 0 < w.mixer.count) (hcount : w.mixer.count < 2147483648)
    (hread : ∀ i, i < w.mixer.count → read_ptr w.mixer.pelems (i : Int) = some (a i))
    (hcmp : ∀ i, i < w.mixer.count → call_compare w elem (a i) = Except.ok (f elem (a i)))
    (hord : consistent_order f)
    (hsorted : ∀ i j, i < j → j < w.mixer.count → f (a i) (a j) < 0)
    (hne : ∀ k, k < w.mixer.count → f elem (a k) ≠ 0) :
    ∃ m : Nat, m < w.mixer.count
      ∧ _snd_mixer_find_elem w elem = Except.ok ((m : Int), f elem (a m))
      ∧ f elem (a m) ≠ 0
      ∧ (f elem (a m) < 0 → ∀ k, k < m → 0 < f elem (a k))
      ∧ (0 < f elem (a m) → ∀ k, m < k → k < w.mixer.count → f elem (a k) < 0) := by
  obtain ⟨hn, hp⟩ := sorted_signs f hord a w.mixer.count elem
    (fun i j hij hj => le_of_lt (hsorted i j hij hj))
  obtain ⟨m, hm, hrun, hbefore, hafter, _⟩ :=
    find_loop_sorted w elem a (fun i => f elem (a i)) hcount hread hcmp hn hp
      (w.mixer.count + 1) 0 w.mixer.count 0 (-1) (by omega) (le_refl _) (by omega)
      (fun k hk => by omega) (fun k hk hkc => by omega) (Or.inl hpos)
  exact ⟨m, hm, (find_elem_of_ne_zero w elem helem).trans hrun, hne m hm, hbefore, hafter⟩

theorem bytes_ptr_ptr_bytes (p : Nat) (h : p < 18446744073709551616) :
    bytes_ptr (ptr_bytes p) = some p := by
  have e : ptr_bytes p = [some (p / 256 ^ 0 % 256), some (p / 256 ^ 1 % 256),
      some (p / 256 ^ 2 % 256), some (p / 256 ^ 3 % 256), some (p / 256 ^ 4 % 256),
      some (p / 256 ^ 5 % 256), some (p / 256 ^ 6 % 256), some (p / 256 ^ 7 % 256)] := rfl
  rw [e]
  simp only [bytes_ptr, Option.map_some']
  congr 1
  norm_num
  omega

theorem length_ptr_bytes (p : Nat) : (ptr_bytes p).length = 8 := rfl

theorem length_mem_of_cells (a : Nat → Nat) (n : Nat) : (mem_of_cells a n).length = 8 * n := by
  induction n with
  | zero => rfl
  | succ n ih => simp only [mem_of_cells, List.length_append, ih, length_ptr_bytes]; omega

theorem read_ptr_append_left (mem tail : List (Option Nat)) (i : Nat)
    (h : (i + 1) * 8 ≤ mem.length) :
    read_ptr (mem ++ tail) (i : Int) = read_ptr mem (i : Int) := by
  have h1 : (0 : Int) ≤ (i : Int) ∧ ((i : Int).toNat + 1) * 8 ≤ (mem ++ tail).length := by
    refine ⟨by omega, ?_⟩
    simp only [Int.toNat_natCast, List.length_append]
    omega
  have h2 : (0 : Int) ≤ (i : Int) ∧ ((i : Int).toNat + 1) * 8 ≤ mem.length := by
    refine ⟨by omega, ?_⟩
    simp only [Int.toNat_natCast]
    omega
  unfold read_ptr
  rw [if_pos h1, if_pos h2]
  simp only [Int.toNat_natCast]
  rw [List.drop_append_of_le_length (by omega)]
  rw [List.take_append_of_le_length (by simp only [List.length_drop]; omega)]

theorem read_ptr_mem_of_cells (a : Nat → Nat) (n : Nat)
    (ha : ∀ i, i < n → a i < 18446744073709551616) :
    ∀ i, i < n → read_ptr (mem_of_cells a n) (i : Int) = some (a i) := by
  induction n with
  | zero => intro i hi; omega
  | succ n ih =>
    intro i hi
    rcases Nat.lt_succ_iff_lt_or_eq.mp hi with hlt | heq
    · simp only [mem_of_cells]
      rw [read_ptr_append_left _ _ _ (by rw [length_mem_of_cells]; omega)]
      exact ih (fun j hj => ha j (by omega)) i hlt
    · subst heq
      have h1 : (0 : Int) ≤ (i : Int)
          ∧ ((i : Int).toNat + 1) * 8 ≤ (mem_of_cells a (i + 1)).length := by
        refine ⟨by omega, ?_⟩
        simp only [Int.toNat_natCast, length_mem_of_cells]
        omega
      unfold read_ptr
      rw [if_pos h1]
      simp only [Int.toNat_natCast, mem_of_cells]
      rw [List.drop_append_of_le_length (by rw [length_mem_of_cells]; omega)]
      have hd : List.drop (i * 8) (mem_of_cells a i) = [] := by
        apply List.drop_of_length_le
        rw [length_mem_of_cells]; omega
      rw [hd, List.nil_append, List.take_of_length_le (by rw [length_ptr_bytes])]
      exact bytes_ptr_ptr_bytes _ (ha i (by omega))

theorem consistent_order_compare_by_address : consistent_order compare_by_address := by
  constructor
  · intro x y
    unfold compare_by_address
    split_ifs <;> omega
  · intro x y z
    unfold compare_by_address
    split_ifs <;> omega

theorem huge_world_read (i : Nat) (hi : i < 2863311530) :
    read_ptr huge_world.mixer.pelems (i : Int) = some (i + 1) := by
  have e : huge_world.mixer.pelems
      = mem_of_cells (fun i => i + 1) 2863311530 ++ List.replicate 176 none := rfl
  rw [e, read_ptr_append_left _ _ _ (by rw [length_mem_of_cells]; omega)]
  exact read_ptr_mem_of_cells (fun i => i + 1) 2863311530
    (fun j hj => by show j + 1 < 18446744073709551616; omega) i hi

theorem huge_world_compare (x y : Nat) :
    call_compare huge_world x y = Except.ok (compare_by_address x y) := rfl

/-- One iteration of the search in the huge registry for a probe that is
greater than the entry read, `m + 1`: the comparison answers `1` and the lower
bound becomes `m + 1`. -/
theorem huge_world_step (probe fuel l m : Nat) (c idx : Int) (hprobe : m + 1 < probe)
    (hl : l < 2863311530)
    (hm : to_int ((l + 2863311530) % 4294967296 / 2) = (m : Int)) (hmu : m < 2863311530) :
    find_loop huge_world probe (fuel + 1) l 2863311530 c idx
      = find_loop huge_world probe fuel (to_unsigned (wrap_int ((m : Int) + 1))) 2863311530 1
          (m : Int) := by
  have hc : compare_by_address probe (m + 1) = 1 := by
    unfold compare_by_address
    rw [if_neg (by omega), if_pos (by omega)]
  rw [find_loop, if_pos hl, hm]
  simp only [huge_world_read m hmu, huge_world_compare, hc]
  rfl

/-- In the huge registry the search for a probe greater than `1431655766`, the
entry at the midpoint, alternates for ever between the lower bounds `1` and
`1431655766`: the sum `l + u` of the second state is `2^32`, which wraps to `0`,
so that only the cells `0` and `1431655765` are ever read. -/
theorem huge_world_cycle (probe : Nat) (hprobe : 1431655766 < probe) (fuel : Nat) :
    ∀ (c idx : Int),
      find_loop huge_world probe fuel 1 2863311530 c idx = Except.error Fault.out_of_fuel
        ∧ find_loop huge_world probe fuel 1431655766 2863311530 c idx
            = Except.error Fault.out_of_fuel := by
  induction fuel with
  | zero => intro c idx; exact ⟨rfl, rfl⟩
  | succ fuel ih =>
    intro c idx
    constructor
    · rw [huge_world_step probe fuel 1 1431655765 c idx hprobe (by decide) (by decide)
        (by decide)]
      have e : to_unsigned (wrap_int (((1431655765 : Nat) : Int) + 1)) = 1431655766 := by decide
      rw [e]
      exact (ih _ _).2
    · rw [huge_world_step probe fuel 1431655766 0 c idx (by omega) (by decide) (by decide)
        (by decide)]
      have e : to_unsigned (wrap_int (((0 : Nat) : Int) + 1)) = 1 := by decide
      rw [e]
      exact (ih _ _).1

theorem huge_world_find_diverges (probe : Nat) (hprobe : 1431655766 < probe) :
    _snd_mixer_find_elem huge_world probe = Except.error Fault.out_of_fuel := by
  have e : _snd_mixer_find_elem huge_world probe
      = find_loop huge_world probe (2863311530 + 1) 0 2863311530 0 (-1) :=
    find_elem_of_ne_zero huge_world probe (by omega)
  rw [e, huge_world_step probe 2863311530 0 1431655765 0 (-1) hprobe (by decide) (by decide)
    (by decide)]
  have e2 : to_unsigned (wrap_int (((1431655765 : Nat) : Int) + 1)) = 1431655766 := by decide
  rw [e2]
  exact (huge_world_cycle probe hprobe 2863311530 _ _).2

/-- C18 at a concrete world: the registry `[0x10, 0x20, 0x30]`, ordered by
address, and the probe `0x20`, which is found at index 1. -/
theorem find_elem_exact_match_witness :
    ∃ m : Nat, m < 3
      ∧ _snd_mixer_find_elem three_elem_world 32
          = Except.ok ((m : Int), compare_by_address 32 (16 * (m + 1)))
      ∧ (compare_by_address 32 (16 * (m + 1)) = 0
          ↔ ∃ k, k < 3 ∧ compare_by_address 32 (16 * (k + 1)) = 0) :=
  find_elem_exact_match three_elem_world 32 (fun i => 16 * (i + 1)) compare_by_address
    (by decide) (by decide) (by decide)
    (by
      intro i hi
      have hi2 : i < 3 := hi
      interval_cases i <;> rfl)
    (fun _ _ => rfl) consistent_order_compare_by_address
    (by
      intro i j hij hj
      show compare_by_address (16 * (i + 1)) (16 * (j + 1)) ≤ 0
      unfold compare_by_address
      split_ifs <;> omega)

/-- C18 as stated fails on the empty registry: the loop does not run and
`_snd_mixer_find_elem` reports direction `0` with index `-1`, although no array
entry compares equal to the probe.  It also fails for an array of more than
`2^31` entries: in the registry of `2863311530` elements, sorted by address, the
probe `2863311530` compares equal to the last entry, at index `2863311529`, but
the search does not come to an end, so direction `0` is never returned. -/
theorem find_elem_reports_match_on_empty_registry :
    fresh_world.mixer.count = 0
      ∧ _snd_mixer_find_elem fresh_world 8224 = Except.ok (-1, 0)
      ∧ huge_world.mixer.count = 2863311530
      ∧ read_ptr huge_world.mixer.pelems 2863311529 = some 2863311530
      ∧ call_compare huge_world 2863311530 2863311530 = Except.ok 0
      ∧ _snd_mixer_find_elem huge_world 2863311530 = Except.error Fault.out_of_fuel :=
  ⟨rfl, rfl, rfl, huge_world_read 2863311529 (by decide), rfl,
    huge_world_find_diverges 2863311530 (by decide)⟩

/-- C19 at a concrete world: the registry `[0x10, 0x20, 0x30]`, ordered by
address, and the probe `0x28`, which sorts between the last two entries. -/
theorem find_elem_insertion_point_witness :
    ∃ m : Nat, m < 3
      ∧ _snd_mixer_find_elem three_elem_world 40
          = Except.ok ((m : Int), compare_by_address 40 (16 * (m + 1)))
      ∧ compare_by_address 40 (16 * (m + 1)) ≠ 0
      ∧ (compare_by_address 40 (16 * (m + 1)) < 0 →
          ∀ k, k < m → 0 < compare_by_address 40 (16 * (k + 1)))
      ∧ (0 < compare_by_address 40 (16 * (m + 1)) →
          ∀ k, m < k → k < 3 → compare_by_address 40 (16 * (k + 1)) < 0) :=
  find_elem_insertion_point three_elem_world 40 (fun i => 16 * (i + 1)) compare_by_address
    (by decide) (by decide) (by decide)
    (by
      intro i hi
      have hi2 : i < 3 := hi
      interval_cases i <;> rfl)
    (fun _ _ => rfl) consistent_order_compare_by_address
    (by
      intro i j hij hj
      show compare_by_address (16 * (i + 1)) (16 * (j + 1)) < 0
      unfold compare_by_address
      rw [if_pos (by omega)]
      decide)
    (by
      intro k hk
      have hk2 : k < 3 := hk
      interval_cases k <;> decide)

/-- C19 as stated fails for an array of more than `2^31` entries: in the
registry of `2863311530` elements, strictly sorted by address, the search for
the probe `2^32`, greater than every entry, returns nothing; after the first
probe the lower bound alternates between `1431655766` and `1`, because `l + u`
wraps around `2^32`. -/
theorem find_elem_diverges_on_huge_array :
    huge_world.mixer.count = 2863311530
      ∧ read_ptr huge_world.mixer.pelems 0 = some 1
      ∧ read_ptr huge_world.mixer.pelems 1431655765 = some 1431655766
      ∧ _snd_mixer_find_elem huge_world 4294967296 = Except.error Fault.out_of_fuel :=
  ⟨rfl, huge_world_read 0 (by decide), huge_world_read 1431655765 (by decide),
    huge_world_find_diverges 4294967296 (by decide)⟩

/-- C20.  For a registry with `count < 2^31` and any comparator, the loop of
`_snd_mixer_find_elem` comes to an end within the `count + 1` iterations of
fuel, after at most `count` reads of the array, each at an index in `[0,
count)`; on every iteration with `l < u ≤ count` the index read lies in `[l,
u)`, so that both ways of going on make `u - l` strictly smaller.  The function
is that loop for every probe but the null pointer, for which the assertion
before the loop fails and nothing is read. -/
theorem find_elem_terminates_in_bounds (w : World) (elem : Nat)
    (hcount : w.mixer.count < 2147483648) :
    _snd_mixer_find_elem w elem
        = (if elem = 0 then Except.error Fault.assertion
           else (find_loop_traced w elem (w.mixer.count + 1) 0 w.mixer.count 0 (-1)).1)
      ∧ _snd_mixer_find_elem w elem ≠ Except.error Fault.out_of_fuel
      ∧ (find_loop_traced w elem (w.mixer.count + 1) 0 w.mixer.count 0 (-1)).2.length
          ≤ w.mixer.count
      ∧ (∀ i ∈ (find_loop_traced w elem (w.mixer.count + 1) 0 w.mixer.count 0 (-1)).2,
          0 ≤ i ∧ i < (w.mixer.count : Int))
      ∧ (∀ l u, l < u → u ≤ w.mixer.count →
          to_unsigned (to_int ((l + u) % 4294967296 / 2)) - l < u - l
            ∧ u - to_unsigned (wrap_int (to_int ((l + u) % 4294967296 / 2) + 1)) < u - l) := by
  obtain ⟨h1, h2, h3⟩ :=
    find_loop_traced_bounded w elem hcount (w.mixer.count + 1) 0 w.mixer.count 0 (-1)
      (by omega) (le_refl _) (by omega)
  have hfst := find_loop_traced_fst w elem (w.mixer.count + 1) 0 w.mixer.count 0 (-1)
  refine ⟨?_, ?_, by omega, ?_, ?_⟩
  · by_cases helem : elem = 0
    · rw [if_pos helem, helem]
      exact find_elem_null w
    · rw [if_neg helem, hfst]
      exact find_elem_of_ne_zero w elem helem
  · by_cases helem : elem = 0
    · rw [helem, find_elem_null]
      intro hcon
      cases hcon
    · intro hcon
      apply h1
      rw [hfst, ← find_elem_of_ne_zero w elem helem]
      exact hcon
  · intro i hi
    have := h3 i hi
    constructor <;> omega
  · intro l u hlu hu
    obtain ⟨hmid, hlm, hmu, hto, hto1⟩ := find_midpoint l u hlu (by omega)
    rw [hmid, hto, hto1]
    omega

/-- C20 at a concrete world: the search for `0x28` in the registry `[0x10, 0x20,
0x30]` reads the indices 1 and 2. -/
theorem find_elem_terminates_in_bounds_witness :
    find_loop_traced three_elem_world 40 4 0 3 0 (-1) = (Except.ok (2, -1), [1, 2])
      ∧ _snd_mixer_find_elem three_elem_world 40 ≠ Except.error Fault.out_of_fuel := by
  refine ⟨rfl, (find_elem_terminates_in_bounds three_elem_world 40 (by decide)).2.1⟩

/-! ## Re-sorting (C11) -/

/-- `qsort` on a block of 32 cells of which only the first two are assigned,
with members of 16 bytes or more: the second member starts in the unassigned
part of the block (or the members do not fit the block), so the comparison of
the two members reads an indeterminate pointer. -/
theorem qsort_wide_members (w : World) (p q : Nat) (size : Nat) (hsize : 16 ≤ size) :
    qsort w (ptr_bytes p ++ ptr_bytes q ++ List.replicate 240 none) 2 size
      = Except.error Fault.undefined_behaviour := by
  have hlen : (ptr_bytes p ++ ptr_bytes q ++ List.replicate 240 (none : Option Nat)).length
      = 256 := by
    simp [length_ptr_bytes]
  unfold qsort
  rw [if_neg (by decide), hlen]
  by_cases hfit : 256 < 2 * size
  · rw [if_pos hfit]
  · rw [if_neg hfit]
    have hr : List.range 2 = [0, 1] := rfl
    have hdrop : List.drop (1 * size)
        (ptr_bytes p ++ ptr_bytes q ++ List.replicate 240 (none : Option Nat))
        = List.replicate (256 - size) none := by
      rw [List.drop_append_eq_append_drop]
      rw [List.drop_of_length_le (by simp [length_ptr_bytes]; omega)]
      simp only [List.nil_append, List.length_append, length_ptr_bytes, List.drop_replicate]
      congr 1
      omega
    have hm1 : (List.take size (List.drop (1 * size)
        (ptr_bytes p ++ ptr_bytes q ++ List.replicate 240 (none : Option Nat))))
        = List.replicate size none := by
      rw [hdrop, List.take_replicate]
      congr 1
      omega
    have hm0len : (List.take size (List.drop (0 * size)
        (ptr_bytes p ++ ptr_bytes q ++ List.replicate 240 (none : Option Nat)))).length
        = size := by
      simp only [Nat.zero_mul, List.drop_zero, List.length_take, hlen]
      omega
    have hcmp : sort_compar w
        (List.take size (List.drop (0 * size)
          (ptr_bytes p ++ ptr_bytes q ++ List.replicate 240 (none : Option Nat))))
        (List.replicate size none) = Except.error Fault.undefined_behaviour := by
      unfold sort_compar
      rw [hm0len]
      rw [if_neg (by simp only [List.length_replicate]; omega)]
      have ht : List.take 8 (List.replicate size (none : Option Nat))
          = none :: List.replicate 7 none := by
        rw [List.take_replicate]
        have : min 8 size = 8 := by omega
        rw [this]
        rfl
      rw [ht]
      simp only [bytes_ptr]
      split <;> first | rfl | simp_all
    simp only [hr, List.map_cons, List.map_nil, hm1, sort_members, insert_member, hcmp]

/-- C11, evaluated where the property fails.  In the consistent registry
`[0x1010, 0x2020]` (capacity 32), `snd_mixer_set_compare` with the comparator
"descending address", a total order, does not return for any value of
`sizeof(snd_mixer_elem_t)` of 16 bytes or more: `qsort` is given the size of an
element record as the member size, where the array holds pointers, so the
second member it compares lies outside the two cells in use.  The run ends in
undefined behaviour with the comparator replaced, the list emptied and the
array as it was. -/
theorem set_compare_sorts_records_not_pointers (sizeof_elem : Nat) (hsize : 16 ≤ sizeof_elem) :
    snd_mixer_set_compare two_elem_world (some compare_by_address_desc) sizeof_elem
      = Outcome.fault Fault.undefined_behaviour
          { two_elem_world with
            mixer := { two_elem_world.mixer with
              elems := [],
              compare := snd_mixer_compare_t.custom compare_by_address_desc } } := by
  have e : two_elem_world.mixer.pelems
      = ptr_bytes 4112 ++ ptr_bytes 8224 ++ List.replicate 240 none := rfl
  have ec : two_elem_world.mixer.count = 2 := rfl
  simp only [snd_mixer_set_compare, snd_mixer_sort, e, ec, qsort_wide_members _ _ _ _ hsize]

/-- C11 at concrete sizes: with 64 bytes for an element record the call ends in
undefined behaviour and leaves the list empty; with the size of a pointer, 8,
in its place the same call returns `0` with the array and the list both
`[0x2020, 0x1010]`. -/
theorem set_compare_sorts_records_not_pointers_witness :
    (snd_mixer_set_compare two_elem_world (some compare_by_address_desc) 64).faulted
        = some Fault.undefined_behaviour
      ∧ (snd_mixer_set_compare two_elem_world (some compare_by_address_desc) 64).world.mixer.elems
          = []
      ∧ (snd_mixer_set_compare two_elem_world (some compare_by_address_desc) 8).returned = some 0
      ∧ (snd_mixer_set_compare two_elem_world (some compare_by_address_desc) 8).world.mixer.elems
          = [8224, 4112]
      ∧ array_cells
          (snd_mixer_set_compare two_elem_world (some compare_by_address_desc) 8).world.mixer.pelems
          2 = [some 8224, some 4112] := by
  refine ⟨?_, ?_, by decide, by decide, by decide⟩
  · rw [set_compare_sorts_records_not_pointers 64 (by decide)]
    rfl
  · rw [set_compare_sorts_records_not_pointers 64 (by decide)]
    rfl

end AlsaMixer
